import Mathlib

/-!
# gogomts: a profile manager over files of the working directory

Shallow embedding of `OOP.go`.  The process state the program acts on (the
working directory, standard output, the error stream) is passed explicitly;
every function of the source that touches it takes a `World` and returns the
next one.  The names the program hands to `os` are paths: they are resolved
against the working directory before an entry is read, written or removed.
-/

namespace Gogomts

/-! ## Strings and errors -/

/-- A Go `string`: an immutable sequence of bytes; `len` is `List.length`. -/
abbrev GoString := List UInt8

/-- The bytes of a string literal of the source (UTF-8, as the Go compiler stores it). -/
def go (s : String) : GoString := s.toUTF8.data.toList

/-- A Go `error` value, kept as the text of its `Error()` method; `none` is `nil`. -/
abbrev GoError := Option GoString

/-! ## The working directory -/

/-- What a name of the working directory refers to. -/
inductive File where
  /-- a regular file and its content -/
  | regular (data : GoString)
  /-- a symbolic link whose target lies in a directory that does not exist:
  the entry is listed, opening it for reading or for writing fails, removing
  it removes the link -/
  | dangling
deriving DecidableEq, Repr

/-- The calls the program makes into `os` and `path/filepath`, in order. -/
inductive Call where
  | WriteFile (name data : GoString)
  | ReadFile (name : GoString)
  | Remove (name : GoString)
  | Glob (pattern : GoString)
deriving DecidableEq, Repr

/-- The names a directory entry can have: not empty, not `.` or `..`, no
separator, no zero byte, at most 255 bytes. -/
def isEntryName (s : GoString) : Bool :=
  s ≠ [] ∧ s ≠ go "." ∧ s ≠ go ".." ∧ '/'.toUInt8 ∉ s ∧ (0 : UInt8) ∉ s ∧ s.length ≤ 255

/-- The working directory: its entries by name.  A name occurs at most once
and is an entry name.  The directory holds files and links only, no
subdirectory, and it is the root of the file system, so that every path
resolves inside it. -/
structure Dir where
  entries : AList (fun _ : GoString => File)
  named : ∀ k ∈ entries.keys, isEntryName k = true

instance : EmptyCollection Dir := ⟨⟨∅, by simp⟩⟩

instance : Membership GoString Dir := ⟨fun d k => k ∈ d.entries⟩

instance (k : GoString) (d : Dir) : Decidable (k ∈ d) :=
  inferInstanceAs (Decidable (k ∈ d.entries))

/-- The names of the entries, in the order the directory holds them. -/
def Dir.keys (d : Dir) : List GoString := d.entries.keys

/-- What the name `k` refers to, if the directory has such an entry. -/
def Dir.lookup (d : Dir) (k : GoString) : Option File := d.entries.lookup k

/-- The directory with entry `k` set to `f` (unchanged when `k` cannot name
an entry). -/
def Dir.insert (d : Dir) (k : GoString) (f : File) : Dir :=
  if h : isEntryName k = true then
    ⟨d.entries.insert k f, by
      intro k1 hk1
      rcases (AList.mem_insert d.entries).1 (AList.mem_keys.2 hk1) with h1 | h1
      · rw [h1]; exact h
      · exact d.named k1 (AList.mem_keys.1 h1)⟩
  else d

/-- The directory without the entry `k`. -/
def Dir.erase (d : Dir) (k : GoString) : Dir :=
  ⟨d.entries.erase k, fun k1 hk1 =>
    d.named k1 (AList.mem_keys.1 (AList.mem_erase.1 (AList.mem_keys.2 hk1)).2)⟩

/-- Process state: the working directory (the profile store), what was
written to standard output and to the error stream (one element per write),
and the file-system calls made so far. -/
structure World where
  dir : Dir
  stdout : List GoString
  stderr : List GoString
  calls : List Call

/-- A fresh process in an empty working directory. -/
def World.empty : World := ⟨∅, [], [], []⟩

/-- A fresh process started in directory `d`. -/
def World.start (d : Dir) : World := ⟨d, [], [], []⟩

namespace os

/-- The text of a `*PathError`: `op path: cause`. -/
def PathError (op path cause : GoString) : GoString :=
  op ++ go " " ++ path ++ go ": " ++ cause

/-- The text of `ENOENT`. -/
def ENOENT : GoString := go "no such file or directory"

/-- The text of `ENOTDIR`. -/
def ENOTDIR : GoString := go "not a directory"

/-- The text of `EISDIR`. -/
def EISDIR : GoString := go "is a directory"

/-- The text of `EINVAL`. -/
def EINVAL : GoString := go "invalid argument"

/-- The text of `ENAMETOOLONG`. -/
def ENAMETOOLONG : GoString := go "file name too long"

/-- The pieces of a path between its separators. -/
def components : GoString → List GoString
  | [] => [[]]
  | c :: cs =>
    if c = '/'.toUInt8 then [] :: components cs
    else
      match components cs with
      | [] => [[c]]
      | h :: t => (c :: h) :: t

/-- What a path denotes. -/
inductive Target where
  /-- the entry of this name, whether or not it exists -/
  | entry (name : GoString)
  /-- the working directory itself -/
  | directory
deriving DecidableEq, Repr

/-- The walk along the components of a path, starting in the working
directory.  An empty component, `.` and `..` (the parent of the root is the
root) stay in the directory.  Any other component that is not the last must
be a directory, and the directory has none: a regular file there gives
`ENOTDIR`, anything else `ENOENT`. -/
def walk (d : Dir) : List GoString → Except GoString Target
  | [] => Except.ok Target.directory
  | c :: rest =>
    if c = [] ∨ c = go "." ∨ c = go ".." then walk d rest
    else if 255 < c.length then Except.error ENAMETOOLONG
    else
      match rest with
      | [] => Except.ok (Target.entry c)
      | _ :: _ =>
        match d.lookup c with
        | some (File.regular _) => Except.error ENOTDIR
        | _ => Except.error ENOENT

/-- Path resolution: a path with a zero byte is refused before the system
call (`EINVAL`), the empty path names nothing, a path of 4096 bytes or more
is too long; otherwise the components are walked. -/
def resolve (d : Dir) (path : GoString) : Except GoString Target :=
  if (0 : UInt8) ∈ path then Except.error EINVAL
  else if path = [] then Except.error ENOENT
  else if 4096 ≤ path.length then Except.error ENAMETOOLONG
  else walk d (components path)

/-- `os.WriteFile(name, data, 0644)`: creates the file or truncates it, then
writes `data`.  (A path that denotes the directory itself is given the error
`EISDIR` in all three calls; the program passes none, its paths end in
`.yaml`.) -/
def WriteFile (name data : GoString) (w : World) : GoError × World :=
  let w1 := { w with calls := w.calls ++ [Call.WriteFile name data] }
  match resolve w.dir name with
  | Except.error cause => (some (PathError (go "open") name cause), w1)
  | Except.ok Target.directory => (some (PathError (go "open") name EISDIR), w1)
  | Except.ok (Target.entry k) =>
    match w.dir.lookup k with
    | some File.dangling => (some (PathError (go "open") name ENOENT), w1)
    | _ => (none, { w1 with dir := w.dir.insert k (File.regular data) })

/-- `os.ReadFile(name)`: the content of a regular file, an error otherwise. -/
def ReadFile (name : GoString) (w : World) : Except GoString GoString × World :=
  let w1 := { w with calls := w.calls ++ [Call.ReadFile name] }
  match resolve w.dir name with
  | Except.error cause => (Except.error (PathError (go "open") name cause), w1)
  | Except.ok Target.directory => (Except.error (PathError (go "read") name EISDIR), w1)
  | Except.ok (Target.entry k) =>
    match w.dir.lookup k with
    | some (File.regular data) => (Except.ok data, w1)
    | some File.dangling => (Except.error (PathError (go "open") name ENOENT), w1)
    | none => (Except.error (PathError (go "open") name ENOENT), w1)

/-- `os.Remove(name)`: removes the entry, an error when there is none. -/
def Remove (name : GoString) (w : World) : GoError × World :=
  let w1 := { w with calls := w.calls ++ [Call.Remove name] }
  match resolve w.dir name with
  | Except.error cause => (some (PathError (go "remove") name cause), w1)
  | Except.ok Target.directory => (some (PathError (go "remove") name EISDIR), w1)
  | Except.ok (Target.entry k) =>
    match w.dir.lookup k with
    | some _ => (none, { w1 with dir := w.dir.erase k })
    | none => (some (PathError (go "remove") name ENOENT), w1)

end os

namespace filepath

/-- `filepath.Match("*.yaml", name)` on the name of a directory entry: the
star takes the stem (an entry name holds no separator), the rest must be
`.yaml`. -/
def Match (name : GoString) : Bool := (go ".yaml").isSuffixOf name

/-- Insertion of a name into a list sorted by the byte order of Go strings. -/
def insertSorted (x : GoString) : List GoString → List GoString
  | [] => [x]
  | y :: ys => if x ≤ y then x :: y :: ys else y :: insertSorted x ys

/-- `slices.Sort` on names, as `Glob` applies it to the directory listing. -/
def sortNames : List GoString → List GoString
  | [] => []
  | x :: xs => insertSorted x (sortNames xs)

/-- `filepath.Glob("*.yaml")`: the names of the working directory that match,
sorted; the pattern is well formed and I/O errors are ignored, so the error
result is always `nil`. -/
def Glob (w : World) : (List GoString × GoError) × World :=
  ((sortNames (w.dir.keys.filter Match), none),
   { w with calls := w.calls ++ [Call.Glob (go "*.yaml")] })

end filepath

namespace fmt

/-- `fmt.Println(s)`: one write of `s` and a newline to standard output. -/
def Println (s : GoString) (w : World) : World :=
  { w with stdout := w.stdout ++ [s ++ go "\n"] }

/-- `fmt.Printf(...)` after formatting: one write of `s` to standard output. -/
def Printf (s : GoString) (w : World) : World :=
  { w with stdout := w.stdout ++ [s] }

end fmt

namespace log

/-- `log.Printf(...)` after formatting: one line on the error stream (the
date and time the logger puts in front are left out). -/
def Printf (s : GoString) (w : World) : World :=
  { w with stderr := w.stderr ++ [s ++ go "\n"] }

end log

/-! ## Profiles and their serialization -/

/-- The record stored in a profile file. -/
structure DataSet where
  User : GoString
  Project : GoString
deriving DecidableEq, Repr

/-- The two functions of `gopkg.in/yaml.v3` the program calls, for the type
`DataSet`.  The library is not part of the repository; it is a parameter. -/
structure Yaml where
  Marshal : DataSet → Except GoString GoString
  Unmarshal : GoString → Except GoString DataSet

/-- What the program expects of the library: a record is serialized without
error and parsing the result gives the record back. -/
def Yaml.Lossless (y : Yaml) : Prop :=
  ∀ d : DataSet, ∃ data, y.Marshal d = Except.ok data ∧ y.Unmarshal data = Except.ok d

/-- The record `d` survives the library: it is serialized without error and
parsing the result gives `d` back. -/
def Yaml.RoundTrips (y : Yaml) (d : DataSet) : Prop :=
  ∃ data, y.Marshal d = Except.ok data ∧ y.Unmarshal data = Except.ok d

/-! ## The four commands -/

structure CreateCommand where
  name : GoString
  user : GoString
  project : GoString
deriving DecidableEq, Repr

structure GetCommand where
  name : GoString
deriving DecidableEq, Repr

structure DeleteCommand where
  name : GoString
deriving DecidableEq, Repr

/-- The text `необходим флаг --name`. -/
def errNameRequired : GoString := go "необходим флаг --name"

def CreateCommand.Execute (y : Yaml) (c : CreateCommand) (w : World) : GoError × World :=
  let userInfo : DataSet := { User := c.user, Project := c.project }
  match y.Marshal userInfo with
  | Except.error err => (some (go "ошибка при создании YAML: " ++ err), w)
  | Except.ok data =>
    match os.WriteFile (c.name ++ go ".yaml") data w with
    | (some err, w1) => (some (go "ошибка записи файла: " ++ err), w1)
    | (none, w1) => (none, w1)

def GetCommand.Execute (y : Yaml) (c : GetCommand) (w : World) : GoError × World :=
  if c.name = [] then (some errNameRequired, w)
  else
    match os.ReadFile (c.name ++ go ".yaml") w with
    | (Except.error err, w1) => (some (go "ошибка чтения файла: " ++ err), w1)
    | (Except.ok data, w1) =>
      match y.Unmarshal data with
      | Except.error err => (some (go "ошибка загрузки YAML: " ++ err), w1)
      | Except.ok profile =>
        (none, fmt.Printf (go "Profile: " ++ c.name ++ go "\nUser: " ++ profile.User
                            ++ go "\nProject: " ++ profile.Project ++ go "\n") w1)

/-- How `ListCommand.Execute` ends: it returns an error value, or the slice
expression `file[:len(file)-5]` goes out of range and the program panics. -/
inductive Outcome where
  | returned (err : GoError)
  | panicked
deriving DecidableEq, Repr

/-- The line `- name (User: user, Project: project)` of the listing. -/
def entryLine (profileName : GoString) (profile : DataSet) : GoString :=
  go "- " ++ profileName ++ go " (User: " ++ profile.User ++ go ", Project: "
    ++ profile.Project ++ go ")\n"

/-- The body of `for _, file := range files` in `ListCommand.Execute`. -/
def ListCommand.range (y : Yaml) : List GoString → World → Outcome × World
  | [], w => (Outcome.returned none, w)
  | file :: files, w =>
    if file.length < 5 then (Outcome.panicked, w)
    else
      let profileName := file.take (file.length - 5)
      match os.ReadFile file w with
      | (Except.error err, w1) =>
        ListCommand.range y files
          (log.Printf (go "ошибка чтения профиля " ++ profileName ++ go ": " ++ err) w1)
      | (Except.ok data, w1) =>
        match y.Unmarshal data with
        | Except.error err =>
          ListCommand.range y files
            (log.Printf (go "ошибка загрузки профилей " ++ profileName ++ go ": " ++ err) w1)
        | Except.ok profile =>
          ListCommand.range y files (fmt.Printf (entryLine profileName profile) w1)

def ListCommand.Execute (y : Yaml) (w : World) : Outcome × World :=
  match filepath.Glob w with
  | ((_, some err), w1) =>
    (Outcome.returned (some (go "ошибка создания списка профилей: " ++ err)), w1)
  | ((files, none), w1) =>
    if files.length = 0 then
      (Outcome.returned none, fmt.Println (go "Нет созданных профилей") w1)
    else
      ListCommand.range y files (fmt.Println (go "Доступные профили:") w1)

def DeleteCommand.Execute (c : DeleteCommand) (w : World) : GoError × World :=
  if c.name = [] then (some errNameRequired, w)
  else
    match os.Remove (c.name ++ go ".yaml") w with
    | (some err, w1) => (some (go "ошибка удаления профиля: " ++ err), w1)
    | (none, w1) => (none, w1)

/-! ## The `flag` package, as far as the program uses it -/

namespace flag

/-- The `ErrorHandling` policy of a flag set. -/
inductive ErrorHandling where
  | ContinueOnError
  | ExitOnError
  | PanicOnError
deriving DecidableEq, Repr

/-- A flag defined with `StringVar` and default `""` (the program defines no
other kind): its name and its usage text. -/
structure Flag where
  Name : GoString
  Usage : GoString
deriving DecidableEq, Repr

/-- A flag set: its name, its policy and the flags defined on it. -/
structure FlagSet where
  name : GoString
  errorHandling : ErrorHandling
  formal : List Flag
deriving DecidableEq, Repr

def NewFlagSet (name : GoString) (errorHandling : ErrorHandling) : FlagSet :=
  { name := name, errorHandling := errorHandling, formal := [] }

def FlagSet.StringVar (f : FlagSet) (name usage : GoString) : FlagSet :=
  { f with formal := f.formal ++ [{ Name := name, Usage := usage }] }

/-- The text of `flag.ErrHelp`. -/
def ErrHelp : GoString := go "flag: help requested"

/-- One command-line argument as `parseOne` reads it. -/
inductive Token where
  /-- `len(s) < 2 || s[0] != '-'`: not a flag, parsing stops before it -/
  | nonFlag
  /-- exactly `--`: parsing stops after it -/
  | terminator
  /-- one or two dashes followed by nothing, a dash or `=` -/
  | badSyntax
  /-- `-name`, `--name` (no value) or `-name=value`, `--name=value` -/
  | named (name : GoString) (value : Option GoString)
deriving DecidableEq, Repr

/-- The loop `for i := 1; i < len(name); i++` of `parseOne`: splits at the
first `=` that is not the first byte. -/
def splitValue : GoString → GoString × Option GoString
  | [] => ([], none)
  | c :: cs =>
    let pre := cs.takeWhile (fun b => b ≠ '='.toUInt8)
    if pre.length < cs.length then (c :: pre, some (cs.drop (pre.length + 1)))
    else (c :: cs, none)

def tokenize (s : GoString) : Token :=
  match s with
  | [] => Token.nonFlag
  | [_] => Token.nonFlag
  | c0 :: c1 :: cs =>
    if c0 ≠ '-'.toUInt8 then Token.nonFlag
    else if c1 = '-'.toUInt8 ∧ cs = [] then Token.terminator
    else
      let name := if c1 = '-'.toUInt8 then cs else c1 :: cs
      match name with
      | [] => Token.badSyntax
      | n0 :: _ =>
        if n0 = '-'.toUInt8 ∨ n0 = '='.toUInt8 then Token.badSyntax
        else Token.named (splitValue name).1 (splitValue name).2

/-- Whether `name` is among the defined flags (`f.formal[name]`). -/
def FlagSet.defined (f : FlagSet) (name : GoString) : Bool :=
  f.formal.any (fun fl => fl.Name = name)

/-- The repeated `parseOne` of `Parse`, without its output: the values set,
latest first, or the error `parseOne` returns. -/
def FlagSet.scan (f : FlagSet) :
    List GoString → List (GoString × GoString) → Except GoString (List (GoString × GoString))
  | [], actual => Except.ok actual
  | s :: args, actual =>
    match tokenize s with
    | Token.nonFlag => Except.ok actual
    | Token.terminator => Except.ok actual
    | Token.badSyntax => Except.error (go "bad flag syntax: " ++ s)
    | Token.named name value =>
      if f.defined name then
        match value with
        | some v => f.scan args ((name, v) :: actual)
        | none =>
          match args with
          | v :: args1 => f.scan args1 ((name, v) :: actual)
          | [] => Except.error (go "flag needs an argument: -" ++ name)
      else if name = go "help" ∨ name = go "h" then Except.error ErrHelp
      else Except.error (go "flag provided but not defined: -" ++ name)

/-- Insertion of a flag by name, for the sorted visit of `PrintDefaults`. -/
def insertFlag (x : Flag) : List Flag → List Flag
  | [] => [x]
  | y :: ys => if x.Name ≤ y.Name then x :: y :: ys else y :: insertFlag x ys

def sortFlags : List Flag → List Flag
  | [] => []
  | x :: xs => insertFlag x (sortFlags xs)

/-- The default `Usage`: the header and `PrintDefaults`, one write per flag
(string flags with default `""` and a usage text of one line). -/
def FlagSet.usage (f : FlagSet) : List GoString :=
  (if f.name = [] then go "Usage:\n" else go "Usage of " ++ f.name ++ go ":\n")
    :: (sortFlags f.formal).map
        (fun fl => go "  -" ++ fl.Name ++ go " string\n    \t" ++ fl.Usage ++ go "\n")

/-- What `Parse` writes to the error stream for an error of `parseOne`:
nothing but the usage for `ErrHelp`, the error and the usage otherwise. -/
def FlagSet.report (f : FlagSet) (err : GoString) : List GoString :=
  if err = ErrHelp then f.usage else (err ++ go "\n") :: f.usage

/-- How a call of `Parse` ends. -/
inductive Result where
  | returned (err : GoError)
  /-- `os.Exit(code)` inside `Parse` -/
  | exited (code : Nat)
  | panicked
deriving DecidableEq, Repr

/-- `f.Parse(arguments)`: the values set and how the call ends. -/
def FlagSet.Parse (f : FlagSet) (arguments : List GoString) (w : World) :
    (Result × List (GoString × GoString)) × World :=
  match f.scan arguments [] with
  | Except.ok actual => ((Result.returned none, actual), w)
  | Except.error err =>
    let w1 := { w with stderr := w.stderr ++ f.report err }
    match f.errorHandling with
    | ErrorHandling.ContinueOnError => ((Result.returned (some err), []), w1)
    | ErrorHandling.ExitOnError =>
      if err = ErrHelp then ((Result.exited 0, []), w1) else ((Result.exited 2, []), w1)
    | ErrorHandling.PanicOnError => ((Result.panicked, []), w1)

/-- The value of the variable bound to flag `name` after parsing. -/
def value (actual : List (GoString × GoString)) (name : GoString) : GoString :=
  (actual.lookup name).getD []

end flag

/-- The flag set `c.fs` that `CreateCommand.ParseFlags` builds. -/
def CreateCommand.fs : flag.FlagSet :=
  (((flag.NewFlagSet (go "create") flag.ErrorHandling.ExitOnError).StringVar
    (go "name") (go "Profile name")).StringVar
    (go "user") (go "User name")).StringVar
    (go "project") (go "Project name")

def CreateCommand.ParseFlags (c : CreateCommand) (args : List GoString) (w : World) :
    (flag.Result × CreateCommand) × World :=
  match CreateCommand.fs.Parse args w with
  | ((r, actual), w1) =>
    ((r, { c with name := flag.value actual (go "name"),
                  user := flag.value actual (go "user"),
                  project := flag.value actual (go "project") }), w1)

/-- The flag set `c.fs` that `GetCommand.ParseFlags` builds. -/
def GetCommand.fs : flag.FlagSet :=
  (flag.NewFlagSet (go "get") flag.ErrorHandling.ExitOnError).StringVar
    (go "name") (go "Profile name")

def GetCommand.ParseFlags (c : GetCommand) (args : List GoString) (w : World) :
    (flag.Result × GetCommand) × World :=
  match GetCommand.fs.Parse args w with
  | ((r, actual), w1) => ((r, { c with name := flag.value actual (go "name") }), w1)

/-- The flag set `c.fs` that `ListCommand.ParseFlags` builds. -/
def ListCommand.fs : flag.FlagSet :=
  flag.NewFlagSet (go "list") flag.ErrorHandling.ExitOnError

def ListCommand.ParseFlags (args : List GoString) (w : World) : flag.Result × World :=
  match ListCommand.fs.Parse args w with
  | ((r, _), w1) => (r, w1)

/-- The flag set `c.fs` that `DeleteCommand.ParseFlags` builds. -/
def DeleteCommand.fs : flag.FlagSet :=
  (flag.NewFlagSet (go "delete") flag.ErrorHandling.ExitOnError).StringVar
    (go "name") (go "Profile name")

def DeleteCommand.ParseFlags (c : DeleteCommand) (args : List GoString) (w : World) :
    (flag.Result × DeleteCommand) × World :=
  match DeleteCommand.fs.Parse args w with
  | ((r, actual), w1) => ((r, { c with name := flag.value actual (go "name") }), w1)

/-! ## The dispatcher -/

def printWelcome (w : World) : World :=
  fmt.Println (go "Для начала пропишите'./gogomts --help' для большей информации о возможностях")
    (fmt.Println (go "Добро поджаловать в gogomts, CLI инструмент для управления профилями") w)

/-- The raw string literal of `printHelp`. -/
def helpText : GoString :=
  go ("Доступные комманды:\n"
    ++ "  profile create --name=<name> --user=<user> --project=<project> - Создание нового профиля\n"
    ++ "  profile get --name=<name>                                      - Вывидение информации о профиле\n"
    ++ "  profile list                                                   - Список профилей\n"
    ++ "  profile delete --name=<name>                                   - Удалить профиль\n"
    ++ "\n"
    ++ "\tПример использования:\n"
    ++ "  ./gogomts profile create --name=test --user=example --project=new-project")

def printHelp (w : World) : World := fmt.Println helpText w

/-- The values of the map `commands`: one variant per command type. -/
inductive Command where
  | create (c : CreateCommand)
  | get (c : GetCommand)
  | list
  | delete (c : DeleteCommand)
deriving DecidableEq, Repr

/-- The lookup `commands[subcommand]`; the stored commands have zero fields. -/
def commands (subcommand : GoString) : Option Command :=
  if subcommand = go "create" then some (Command.create ⟨[], [], []⟩)
  else if subcommand = go "get" then some (Command.get ⟨[]⟩)
  else if subcommand = go "list" then some Command.list
  else if subcommand = go "delete" then some (Command.delete ⟨[]⟩)
  else none

def Command.ParseFlags (cmd : Command) (args : List GoString) (w : World) :
    (flag.Result × Command) × World :=
  match cmd with
  | Command.create c =>
    match c.ParseFlags args w with
    | ((r, c1), w1) => ((r, Command.create c1), w1)
  | Command.get c =>
    match c.ParseFlags args w with
    | ((r, c1), w1) => ((r, Command.get c1), w1)
  | Command.list =>
    match ListCommand.ParseFlags args w with
    | (r, w1) => ((r, Command.list), w1)
  | Command.delete c =>
    match c.ParseFlags args w with
    | ((r, c1), w1) => ((r, Command.delete c1), w1)

def Command.Execute (y : Yaml) (cmd : Command) (w : World) : Outcome × World :=
  match cmd with
  | Command.create c =>
    match c.Execute y w with
    | (err, w1) => (Outcome.returned err, w1)
  | Command.get c =>
    match c.Execute y w with
    | (err, w1) => (Outcome.returned err, w1)
  | Command.list => ListCommand.Execute y w
  | Command.delete c =>
    match c.Execute w with
    | (err, w1) => (Outcome.returned err, w1)

/-- The flag set of a command. -/
def Command.fs : Command → flag.FlagSet
  | Command.create _ => CreateCommand.fs
  | Command.get _ => GetCommand.fs
  | Command.list => ListCommand.fs
  | Command.delete _ => DeleteCommand.fs

/-- `log.Fatalf(...)` after formatting: the line on the error stream; the
caller ends with status 1. -/
def log.Fatalf (s : GoString) (w : World) : World := log.Printf s w

/-- The function `main` on `os.Args`: the exit status of the process and the
final state.  The root flag set is created and its `help` flag defined, but
it is never parsed, so `*rootHelp` keeps its default `false`. -/
def main (y : Yaml) (Args : List GoString) (w : World) : Nat × World :=
  let rootHelp := false
  if rootHelp then (0, printHelp w)
  else
    match Args with
    | [] => (1, printWelcome w)
    | [_] => (1, printWelcome w)
    | _ :: arg1 :: rest =>
      if arg1 = go "help" then (1, printHelp w)
      else if arg1 ≠ go "profile" then
        (1, printHelp (fmt.Printf (go "неизвестная командп: " ++ arg1 ++ go "\n") w))
      else
        match rest with
        | [] => (1, printHelp (fmt.Println (go "Пожалуйста укажите действие с профилем") w))
        | subcommand :: flags =>
          match commands subcommand with
          | none =>
            (1, printHelp (fmt.Printf (go "Незвестное действие: " ++ subcommand ++ go "\n") w))
          | some cmd =>
            match cmd.ParseFlags flags w with
            | ((flag.Result.exited code, _), w1) => (code, w1)
            | ((flag.Result.panicked, _), w1) => (2, w1)
            | ((flag.Result.returned (some err), _), w1) =>
              (1, log.Fatalf (go "Ошибка парсинга флагов: " ++ err) w1)
            | ((flag.Result.returned none, cmd1), w1) =>
              match cmd1.Execute y w1 with
              | (Outcome.panicked, w2) => (2, w2)
              | (Outcome.returned (some err), w2) =>
                (1, log.Fatalf (go "Ошибка исполнения команды: " ++ err) w2)
              | (Outcome.returned none, w2) => (0, w2)

/-! ## A serialization to run the program with -/

/-- A field as marked bytes: `1` before every byte, `0` at the end. -/
def frame : GoString → GoString
  | [] => [0]
  | b :: bs => 1 :: b :: frame bs

/-- Reads one framed field: the field and the bytes after it. -/
def unframe : GoString → Option (GoString × GoString)
  | [] => none
  | m :: rest =>
    if m = 0 then some ([], rest)
    else
      match rest with
      | [] => none
      | b :: bs =>
        if m = 1 then
          match unframe bs with
          | some (field, after) => some (b :: field, after)
          | none => none
        else none

/-- A lossless serialization of `DataSet`, standing in for the YAML library
where the program is run on concrete input: the two fields, framed. -/
def Yaml.framed : Yaml where
  Marshal d := Except.ok (frame d.User ++ frame d.Project)
  Unmarshal data :=
    match unframe data with
    | none => Except.error (go "yaml: unmarshal errors")
    | some (user, rest) =>
      match unframe rest with
      | some (project, []) => Except.ok { User := user, Project := project }
      | _ => Except.error (go "yaml: unmarshal errors")

/-- The words YAML writes and reads back as they are: a lower-case letter
followed by lower-case letters, digits and hyphens, and not one of the words
YAML reads as a boolean or as null. -/
def isPlainWord (s : GoString) : Bool :=
  match s with
  | [] => false
  | c :: cs =>
    (97 ≤ c ∧ c ≤ 122) ∧
    cs.all (fun b => (97 ≤ b ∧ b ≤ 122) ∨ (48 ≤ b ∧ b ≤ 57) ∨ b = '-'.toUInt8) ∧
    s ∉ [go "true", go "false", go "null", go "yes", go "no", go "on", go "off",
         go "y", go "n"]

/-- Removes the prefix `p` from `s`, if `s` starts with it. -/
def dropPrefix (p s : GoString) : Option GoString :=
  if p.isPrefixOf s then some (s.drop p.length) else none

/-- The library on the records whose two fields are plain words: the
document is the two lines `user: word` and `project: word`.  On any other
record or document this value reports an error; it says nothing about the
library there. -/
def Yaml.plain : Yaml where
  Marshal d :=
    if isPlainWord d.User ∧ isPlainWord d.Project then
      Except.ok (go "user: " ++ d.User ++ go "\nproject: " ++ d.Project ++ go "\n")
    else Except.error (go "yaml: not a record of plain words")
  Unmarshal data :=
    match dropPrefix (go "user: ") data with
    | none => Except.error (go "yaml: unmarshal errors")
    | some rest =>
      let user := rest.takeWhile (fun b => b ≠ '\n'.toUInt8)
      match dropPrefix (go "\nproject: ") (rest.drop user.length) with
      | none => Except.error (go "yaml: unmarshal errors")
      | some rest2 =>
        let project := rest2.takeWhile (fun b => b ≠ '\n'.toUInt8)
        if rest2.drop project.length = go "\n" ∧ isPlainWord user ∧ isPlainWord project then
          Except.ok { User := user, Project := project }
        else Except.error (go "yaml: unmarshal errors")

/-- The argument lists that select an operation: the first argument is
`profile` and the second is one of `create`, `get`, `list`, `delete`. -/
def selectsOperation (Args : List GoString) : Bool :=
  match Args with
  | _ :: arg1 :: arg2 :: _ =>
    arg1 = go "profile" ∧
      (arg2 = go "create" ∨ arg2 = go "get" ∨ arg2 = go "list" ∨ arg2 = go "delete")
  | _ => false

/-! ## Notions used to state the properties of the listing -/

/-- Running create for each command of a list in turn, up to the first error. -/
def createAll (y : Yaml) : List CreateCommand → World → GoError × World
  | [], w => (none, w)
  | c :: cs, w =>
    match c.Execute y w with
    | (some err, w1) => (some err, w1)
    | (none, w1) => createAll y cs w1

/-- The record a name of the directory holds, when the file can be read and
its content parsed. -/
def profileOf (y : Yaml) (d : Dir) (file : GoString) : Option DataSet :=
  match d.lookup file with
  | some (File.regular data) =>
    match y.Unmarshal data with
    | Except.ok profile => some profile
    | Except.error _ => none
  | _ => none

/-- The line of the listing for a matching name, when it holds a record. -/
def entryOf (y : Yaml) (d : Dir) (file : GoString) : Option GoString :=
  (profileOf y d file).map (entryLine (file.take (file.length - 5)))

/-- The warning for a matching name that cannot be read or parsed. -/
def warningOf (y : Yaml) (d : Dir) (file : GoString) : Option GoString :=
  match d.lookup file with
  | some (File.regular data) =>
    match y.Unmarshal data with
    | Except.ok _ => none
    | Except.error err =>
      some (go "ошибка загрузки профилей " ++ file.take (file.length - 5) ++ go ": " ++ err
        ++ go "\n")
  | _ =>
    some (go "ошибка чтения профиля " ++ file.take (file.length - 5) ++ go ": "
      ++ os.PathError (go "open") file os.ENOENT ++ go "\n")

/-- A directory with a file that does not parse (`a.yaml`), an entry that
cannot be read (`b.yaml`), a profile (`c.yaml`) and a file that is no profile
(`notes.txt`). -/
def mixedDir : Dir :=
  ((((∅ : Dir).insert (go "notes.txt") (File.regular (go "hello"))).insert (go "c.yaml")
    (File.regular (frame (go "u") ++ frame (go "p")))).insert (go "b.yaml")
    File.dangling).insert (go "a.yaml") (File.regular (go "junk"))

/-! ## Lemmas on the directory and on paths -/

theorem isEntryName_iff (s : GoString) :
    isEntryName s = true ↔
      s ≠ [] ∧ s ≠ go "." ∧ s ≠ go ".." ∧ '/'.toUInt8 ∉ s ∧ (0 : UInt8) ∉ s ∧ s.length ≤ 255 := by
  simp [isEntryName]

theorem dir_mem_keys (d : Dir) (k : GoString) : k ∈ d ↔ k ∈ d.keys := AList.mem_keys

theorem dir_entryName (d : Dir) (k : GoString) (h : k ∈ d) : isEntryName k = true :=
  d.named k (AList.mem_keys.1 h)

theorem dir_not_mem_empty (k : GoString) : k ∉ (∅ : Dir) := AList.not_mem_empty k

theorem dir_keys_empty : (∅ : Dir).keys = [] := rfl

theorem dir_lookup_eq_none (d : Dir) (k : GoString) : d.lookup k = none ↔ k ∉ d :=
  AList.lookup_eq_none

theorem dir_lookup_isSome (d : Dir) (k : GoString) : (d.lookup k).isSome = true ↔ k ∈ d :=
  AList.lookup_isSome

theorem dir_lookup_insert (d : Dir) (k : GoString) (f : File) (h : isEntryName k = true) :
    (d.insert k f).lookup k = some f := by
  simp [Dir.insert, h, Dir.lookup]

theorem dir_lookup_insert_ne (d : Dir) (k k1 : GoString) (f : File) (hne : k1 ≠ k) :
    (d.insert k f).lookup k1 = d.lookup k1 := by
  unfold Dir.insert
  split
  · simp [Dir.lookup, AList.lookup_insert_ne hne]
  · rfl

theorem dir_mem_insert (d : Dir) (k k1 : GoString) (f : File) (h : isEntryName k = true) :
    k1 ∈ d.insert k f ↔ k1 = k ∨ k1 ∈ d := by
  have : (d.insert k f).entries = d.entries.insert k f := by simp [Dir.insert, h]
  show k1 ∈ (d.insert k f).entries ↔ _
  rw [this]
  exact AList.mem_insert d.entries

theorem dir_keys_insert (d : Dir) (k : GoString) (f : File) (h : isEntryName k = true)
    (hk : k ∉ d) : (d.insert k f).keys = k :: d.keys := by
  have : (d.insert k f).entries = d.entries.insert k f := by simp [Dir.insert, h]
  unfold Dir.keys
  rw [this, AList.keys_insert]
  exact congrArg _ (@List.erase_of_not_mem GoString instBEqOfDecidableEq inferInstance
    _ _ (fun h1 => hk (AList.mem_keys.2 h1)))

theorem dir_lookup_erase_ne (d : Dir) (k k1 : GoString) (hne : k1 ≠ k) :
    (d.erase k).lookup k1 = d.lookup k1 := AList.lookup_erase_ne hne

theorem dir_not_mem_erase (d : Dir) (k : GoString) : k ∉ d.erase k := by
  intro h
  exact (AList.mem_erase.1 h).1 rfl

theorem components_eq (s : GoString) (h : '/'.toUInt8 ∉ s) : os.components s = [s] := by
  induction s with
  | nil => rfl
  | cons c cs ih =>
    have hc : c ≠ '/'.toUInt8 := fun e => h (by simp [e])
    have hcs : '/'.toUInt8 ∉ cs := fun e => h (List.mem_cons_of_mem _ e)
    simp [os.components, hc, ih hcs]

theorem resolve_entryName (d : Dir) (p : GoString) (h : isEntryName p = true) :
    os.resolve d p = Except.ok (os.Target.entry p) := by
  obtain ⟨h1, h2, h3, h4, h5, h6⟩ := (isEntryName_iff p).1 h
  have hlen : ¬ 4096 ≤ p.length := by omega
  have hlen2 : ¬ 255 < p.length := by omega
  simp [os.resolve, h5, h1, hlen, components_eq p h4, os.walk, h2, h3, hlen2]


theorem components_ne_nil (p : GoString) : os.components p ≠ [] := by
  induction p with
  | nil => simp [os.components]
  | cons c cs ih =>
    unfold os.components
    split
    · simp
    · split <;> simp

theorem components_clean (p c : GoString) (hc : c ∈ os.components p) :
    '/'.toUInt8 ∉ c ∧ ((0 : UInt8) ∉ p → (0 : UInt8) ∉ c) := by
  induction p generalizing c with
  | nil =>
    simp [os.components] at hc
    subst hc
    simp
  | cons b bs ih =>
    unfold os.components at hc
    split at hc
    · rcases List.mem_cons.1 hc with h | h
      · subst h; simp
      · obtain ⟨h1, h2⟩ := ih c h
        exact ⟨h1, fun h0 => h2 (fun h3 => h0 (List.mem_cons_of_mem _ h3))⟩
    · rename_i hb
      cases hcs : os.components bs with
      | nil => exact absurd hcs (components_ne_nil bs)
      | cons h t =>
        rw [hcs] at hc
        simp only at hc
        rcases List.mem_cons.1 hc with h1 | h1
        · subst h1
          obtain ⟨h2, h3⟩ := ih h (by rw [hcs]; exact List.mem_cons_self _ _)
          refine ⟨?_, ?_⟩
          · intro hm
            rcases List.mem_cons.1 hm with h4 | h4
            · exact hb h4.symm
            · exact h2 h4
          · intro h0 hm
            rcases List.mem_cons.1 hm with h4 | h4
            · exact h0 (by rw [h4]; exact List.mem_cons_self _ _)
            · exact h3 (fun h5 => h0 (List.mem_cons_of_mem _ h5)) h4
        · obtain ⟨h2, h3⟩ := ih c (by rw [hcs]; exact List.mem_cons_of_mem _ h1)
          exact ⟨h2, fun h0 => h3 (fun h5 => h0 (List.mem_cons_of_mem _ h5))⟩

theorem walk_entry (d : Dir) (cs : List GoString) (k : GoString)
    (h : os.walk d cs = Except.ok (os.Target.entry k)) :
    k ∈ cs ∧ k ≠ [] ∧ k ≠ go "." ∧ k ≠ go ".." ∧ k.length ≤ 255 := by
  induction cs with
  | nil => simp [os.walk] at h
  | cons c rest ih =>
    unfold os.walk at h
    split at h
    · obtain ⟨h1, h2⟩ := ih h
      exact ⟨List.mem_cons_of_mem _ h1, h2⟩
    · rename_i hskip
      split at h
      · simp at h
      · rename_i hlen
        cases rest with
        | nil =>
          simp only [Except.ok.injEq, os.Target.entry.injEq] at h
          subst h
          simp only [not_or] at hskip
          exact ⟨List.mem_cons_self _ _, hskip.1, hskip.2.1, hskip.2.2, by omega⟩
        | cons r rs =>
          simp only at h
          split at h <;> simp at h

/-- A path that resolves to an entry resolves to an entry name. -/
theorem resolve_entry_name (d : Dir) (p k : GoString)
    (h : os.resolve d p = Except.ok (os.Target.entry k)) : isEntryName k = true := by
  unfold os.resolve at h
  split at h
  · simp at h
  · rename_i h0
    split at h
    · simp at h
    · split at h
      · simp at h
      · obtain ⟨h1, h2, h3, h4, h5⟩ := walk_entry d _ k h
        obtain ⟨h6, h7⟩ := components_clean p k h1
        exact (isEntryName_iff k).2 ⟨h2, h3, h4, h6, h7 h0, h5⟩


theorem walk_directory (d : Dir) (cs : List GoString)
    (h : os.walk d cs = Except.ok os.Target.directory) :
    ∀ c ∈ cs, c = [] ∨ c = go "." ∨ c = go ".." := by
  induction cs with
  | nil => simp
  | cons c rest ih =>
    unfold os.walk at h
    split at h
    · rename_i hskip
      intro x hx
      rcases List.mem_cons.1 hx with h1 | h1
      · rw [h1]; exact hskip
      · exact ih h x h1
    · split at h
      · simp at h
      · cases rest with
        | nil => simp at h
        | cons r rs =>
          simp only at h
          split at h <;> simp at h

theorem components_suffix (a b : GoString) (hb : '/'.toUInt8 ∉ b) :
    ∃ c ∈ os.components (a ++ b), b <:+ c := by
  induction a with
  | nil =>
    refine ⟨b, ?_, List.suffix_refl b⟩
    simp [components_eq b hb]
  | cons x xs ih =>
    obtain ⟨c, hc, hs⟩ := ih
    simp only [List.cons_append]
    unfold os.components
    split
    · exact ⟨c, List.mem_cons_of_mem _ hc, hs⟩
    · cases hcs : os.components (xs ++ b) with
      | nil => exact absurd hcs (components_ne_nil _)
      | cons h t =>
        rw [hcs] at hc
        simp only
        rcases List.mem_cons.1 hc with h1 | h1
        · subst h1
          exact ⟨x :: c, List.mem_cons_self _ _, hs.trans (List.suffix_cons x c)⟩
        · exact ⟨c, List.mem_cons_of_mem _ h1, hs⟩

/-- The paths the program passes, which end in `.yaml`, never denote the
working directory itself. -/
theorem resolve_yaml_not_directory (d : Dir) (name : GoString) :
    os.resolve d (name ++ go ".yaml") ≠ Except.ok os.Target.directory := by
  intro h
  unfold os.resolve at h
  split at h
  · simp at h
  · split at h
    · simp at h
    · split at h
      · simp at h
      · obtain ⟨c, hc, hs⟩ := components_suffix name (go ".yaml") (by decide)
        have hlen := hs.length_le
        have h5 : (go ".yaml").length = 5 := by decide
        rcases walk_directory d _ h c hc with h1 | h1 | h1 <;>
          · rw [h1] at hlen
            rw [h5] at hlen
            revert hlen
            decide

/-! ## Lemmas on the serialization and the single commands -/

theorem unframe_frame (s rest : GoString) : unframe (frame s ++ rest) = some (s, rest) := by
  induction s with
  | nil => cases rest <;> simp [frame, unframe]
  | cons b bs ih =>
    have h : unframe (1 :: b :: (frame bs ++ rest)) = some (b :: bs, rest) := by
      rw [unframe]; simp [ih]
    simpa [frame] using h

theorem framed_lossless : Yaml.framed.Lossless := by
  intro d
  refine ⟨frame d.User ++ frame d.Project, rfl, ?_⟩
  have h2 : unframe (frame d.Project) = some (d.Project, []) := by
    simpa using unframe_frame d.Project []
  simp [Yaml.framed, unframe_frame, h2]

theorem create_execute_eq (y : Yaml) (c : CreateCommand) (w : World) (data : GoString)
    (h : y.Marshal ⟨c.user, c.project⟩ = Except.ok data)
    (hname : isEntryName (c.name ++ go ".yaml") = true)
    (hlink : w.dir.lookup (c.name ++ go ".yaml") ≠ some File.dangling) :
    c.Execute y w =
      (none, { w with dir := w.dir.insert (c.name ++ go ".yaml") (File.regular data),
                      calls := w.calls ++ [Call.WriteFile (c.name ++ go ".yaml") data] }) := by
  cases hl : w.dir.lookup (c.name ++ go ".yaml") with
  | none => simp [CreateCommand.Execute, h, os.WriteFile, resolve_entryName _ _ hname, hl]
  | some f =>
    cases f with
    | regular d =>
      simp [CreateCommand.Execute, h, os.WriteFile, resolve_entryName _ _ hname, hl]
    | dangling => exact absurd hl hlink

theorem get_execute_regular (y : Yaml) (c : GetCommand) (w : World) (data : GoString)
    (d : DataSet) (hn : c.name ≠ [])
    (hfile : w.dir.lookup (c.name ++ go ".yaml") = some (File.regular data))
    (hd : y.Unmarshal data = Except.ok d) :
    c.Execute y w = (none, { w with
      stdout := w.stdout ++ [go "Profile: " ++ c.name ++ go "\nUser: " ++ d.User
                              ++ go "\nProject: " ++ d.Project ++ go "\n"],
      calls := w.calls ++ [Call.ReadFile (c.name ++ go ".yaml")] }) := by
  have hname : isEntryName (c.name ++ go ".yaml") = true :=
    dir_entryName _ _ ((dir_lookup_isSome _ _).1 (by rw [hfile]; rfl))
  simp [GetCommand.Execute, hn, os.ReadFile, resolve_entryName _ _ hname, hfile, hd, fmt.Printf]

theorem get_execute_absent (y : Yaml) (c : GetCommand) (w : World) (hn : c.name ≠ [])
    (hname : isEntryName (c.name ++ go ".yaml") = true)
    (hfile : w.dir.lookup (c.name ++ go ".yaml") = none) :
    c.Execute y w = (some (go "ошибка чтения файла: "
        ++ os.PathError (go "open") (c.name ++ go ".yaml") os.ENOENT),
      { w with calls := w.calls ++ [Call.ReadFile (c.name ++ go ".yaml")] }) := by
  simp [GetCommand.Execute, hn, os.ReadFile, resolve_entryName _ _ hname, hfile]

theorem delete_execute_present (c : DeleteCommand) (w : World) (hn : c.name ≠ [])
    (hfile : (c.name ++ go ".yaml") ∈ w.dir) :
    c.Execute w = (none, { w with dir := w.dir.erase (c.name ++ go ".yaml"),
                                  calls := w.calls ++ [Call.Remove (c.name ++ go ".yaml")] }) := by
  obtain ⟨f, hf⟩ := Option.isSome_iff_exists.1 ((dir_lookup_isSome _ _).2 hfile)
  simp [DeleteCommand.Execute, hn, os.Remove, resolve_entryName _ _ (dir_entryName _ _ hfile), hf]

theorem go_name_eq : go "--name=" = [45, 45, 110, 97, 109, 101, 61] := by decide

theorem tokenize_name_eq (n : GoString) :
    flag.tokenize (go "--name=" ++ n) = flag.Token.named (go "name") (some n) := by
  have h1 : ('-'.toUInt8) = 45 := by decide
  have h2 : ('='.toUInt8) = 61 := by decide
  have h3 : go "name" = [110, 97, 109, 101] := by decide
  simp [go_name_eq, flag.tokenize, flag.splitValue, h1, h2, h3, List.takeWhile]

theorem delete_parseflags_name (c : DeleteCommand) (n : GoString) (w : World) :
    c.ParseFlags [go "--name=" ++ n] w = ((flag.Result.returned none, ⟨n⟩), w) := by
  have hd : DeleteCommand.fs.defined (go "name") = true := by decide
  simp [DeleteCommand.ParseFlags, flag.FlagSet.Parse, flag.FlagSet.scan, tokenize_name_eq, hd,
    flag.value]

theorem get_parseflags_name (c : GetCommand) (n : GoString) (w : World) :
    c.ParseFlags [go "--name=" ++ n] w = ((flag.Result.returned none, ⟨n⟩), w) := by
  have hd : GetCommand.fs.defined (go "name") = true := by decide
  simp [GetCommand.ParseFlags, flag.FlagSet.Parse, flag.FlagSet.scan, tokenize_name_eq, hd,
    flag.value]

/-! ## Create, get and delete -/

/-- C1 (amended): for every non-empty name `n` such that `n.yaml` is an
entry name (no separator, no zero byte, at most 255 bytes), all `user` and
`project` whose record the serialization writes and reads back, and every
state in which `n.yaml` is not a dangling link, create returns no error, get
with the same name on the resulting state returns no error, and what get
writes to standard output is exactly the three lines `Profile: n`,
`User: user`, `Project: project`. -/
theorem create_get_round_trip (y : Yaml) (n user project : GoString) (hn : n ≠ [])
    (hname : isEntryName (n ++ go ".yaml") = true)
    (hrt : y.RoundTrips ⟨user, project⟩) (w : World)
    (hlink : w.dir.lookup (n ++ go ".yaml") ≠ some File.dangling) :
    (CreateCommand.Execute y ⟨n, user, project⟩ w).1 = none ∧
    (GetCommand.Execute y ⟨n⟩ (CreateCommand.Execute y ⟨n, user, project⟩ w).2).1 = none ∧
    (GetCommand.Execute y ⟨n⟩ (CreateCommand.Execute y ⟨n, user, project⟩ w).2).2.stdout =
      w.stdout ++ [go "Profile: " ++ n ++ go "\nUser: " ++ user
                    ++ go "\nProject: " ++ project ++ go "\n"] := by
  obtain ⟨data, hm, hu⟩ := hrt
  rw [create_execute_eq y ⟨n, user, project⟩ w data hm hname hlink]
  rw [get_execute_regular y ⟨n⟩ _ data ⟨user, project⟩ hn
    (dir_lookup_insert _ _ _ hname) hu]
  exact ⟨rfl, rfl, rfl⟩

theorem create_get_round_trip_witness :
    go "test" ≠ [] ∧ isEntryName (go "test" ++ go ".yaml") = true ∧
    Yaml.plain.RoundTrips ⟨go "example", go "new-project"⟩ ∧
    World.empty.dir.lookup (go "test" ++ go ".yaml") ≠ some File.dangling ∧
    (GetCommand.Execute Yaml.plain ⟨go "test"⟩
      (CreateCommand.Execute Yaml.plain ⟨go "test", go "example", go "new-project"⟩
        World.empty).2).2.stdout =
      World.empty.stdout ++ [go "Profile: " ++ go "test" ++ go "\nUser: " ++ go "example"
                    ++ go "\nProject: " ++ go "new-project" ++ go "\n"] ∧
    Yaml.plain.Marshal ⟨go "example", go "new-project"⟩
      = Except.ok (go "user: example\nproject: new-project\n") ∧
    (main Yaml.plain [go "gogomts", go "profile", go "create", go "--name=test",
      go "--user=example", go "--project=new-project"] World.empty).1 = 0 ∧
    (main Yaml.plain [go "gogomts", go "profile", go "get", go "--name=test"]
      (main Yaml.plain [go "gogomts", go "profile", go "create", go "--name=test",
        go "--user=example", go "--project=new-project"] World.empty).2).1 = 0 ∧
    (main Yaml.plain [go "gogomts", go "profile", go "get", go "--name=test"]
      (main Yaml.plain [go "gogomts", go "profile", go "create", go "--name=test",
        go "--user=example", go "--project=new-project"] World.empty).2).2.stdout =
      [go "Profile: test\nUser: example\nProject: new-project\n"] :=
  ⟨by decide, by decide, ⟨go "user: example\nproject: new-project\n", rfl, rfl⟩, by decide,
    (create_get_round_trip Yaml.plain (go "test") (go "example") (go "new-project")
      (by decide) (by decide) ⟨go "user: example\nproject: new-project\n", rfl, rfl⟩
      World.empty (by decide)).2.2,
    rfl, by decide, by decide, by decide⟩

/-- C1 as stated fails.  With the non-empty name `a/b` in an empty directory
create returns the file-write error (there is no directory `a`) and the
following get returns the file-read error and prints nothing.  With the name
`b` in a directory where `b.yaml` is a dangling link create returns the
file-write error too. -/
theorem create_get_round_trip_counterexample :
    go "a/b" ≠ [] ∧
    (CreateCommand.Execute Yaml.plain ⟨go "a/b", go "example", go "new-project"⟩
      World.empty).1 =
      some (go "ошибка записи файла: open a/b.yaml: no such file or directory") ∧
    (GetCommand.Execute Yaml.plain ⟨go "a/b"⟩
      (CreateCommand.Execute Yaml.plain ⟨go "a/b", go "example", go "new-project"⟩
        World.empty).2).1 =
      some (go "ошибка чтения файла: open a/b.yaml: no such file or directory") ∧
    (GetCommand.Execute Yaml.plain ⟨go "a/b"⟩
      (CreateCommand.Execute Yaml.plain ⟨go "a/b", go "example", go "new-project"⟩
        World.empty).2).2.stdout = [] ∧
    (CreateCommand.Execute Yaml.plain ⟨go "b", go "example", go "new-project"⟩
      (World.start mixedDir)).1 =
      some (go "ошибка записи файла: open b.yaml: no such file or directory") := by
  refine ⟨by decide, by decide, by decide, by decide, by decide⟩

/-- C2 (amended): for every name such that `name.yaml` is an entry name, every
user and project that the serialization writes without error, and every state
in which `name.yaml` is not a dangling link, create returns no error, whether
or not `name.yaml` exists; the only file-system call it makes is the one
`WriteFile` (no existence check); afterwards `name.yaml` holds the
serialization of (user, project) and every other name refers to what it
referred to before.  Hence a second create with the same (non-empty) name and
a user and project that the serialization writes and reads back succeeds too,
and get then prints the second user and project. -/
theorem create_overwrites_one_file (y : Yaml) (c : CreateCommand) (data : GoString)
    (hm : y.Marshal ⟨c.user, c.project⟩ = Except.ok data)
    (hname : isEntryName (c.name ++ go ".yaml") = true) (w : World)
    (hlink : w.dir.lookup (c.name ++ go ".yaml") ≠ some File.dangling) :
    (c.Execute y w).1 = none ∧
    (c.Execute y w).2.calls = w.calls ++ [Call.WriteFile (c.name ++ go ".yaml") data] ∧
    (c.Execute y w).2.dir.lookup (c.name ++ go ".yaml") = some (File.regular data) ∧
    (∀ f, f ≠ c.name ++ go ".yaml" → (c.Execute y w).2.dir.lookup f = w.dir.lookup f) ∧
    (c.name ≠ [] → ∀ user2 project2 : GoString, y.RoundTrips ⟨user2, project2⟩ →
      (CreateCommand.Execute y ⟨c.name, user2, project2⟩ (c.Execute y w).2).1 = none ∧
      (GetCommand.Execute y ⟨c.name⟩
        (CreateCommand.Execute y ⟨c.name, user2, project2⟩ (c.Execute y w).2).2).1 = none ∧
      (GetCommand.Execute y ⟨c.name⟩
        (CreateCommand.Execute y ⟨c.name, user2, project2⟩ (c.Execute y w).2).2).2.stdout =
        w.stdout ++ [go "Profile: " ++ c.name ++ go "\nUser: " ++ user2
                      ++ go "\nProject: " ++ project2 ++ go "\n"]) := by
  rw [create_execute_eq y c w data hm hname hlink]
  have hnew := dir_lookup_insert w.dir (c.name ++ go ".yaml") (File.regular data) hname
  refine ⟨rfl, rfl, hnew, ?_, ?_⟩
  · intro f hf
    exact dir_lookup_insert_ne _ _ _ _ hf
  · intro hn user2 project2 hrt
    obtain ⟨data2, hm2, hu2⟩ := hrt
    rw [create_execute_eq y ⟨c.name, user2, project2⟩ _ data2 hm2 hname
      (by simp only [hnew]; exact fun h => by cases h)]
    rw [get_execute_regular y ⟨c.name⟩ _ data2 ⟨user2, project2⟩ hn
      (dir_lookup_insert _ _ _ hname) hu2]
    exact ⟨rfl, rfl, rfl⟩

theorem create_overwrites_one_file_witness :
    Yaml.plain.Marshal ⟨go "example", go "first"⟩
      = Except.ok (go "user: example\nproject: first\n") ∧
    isEntryName (go "test" ++ go ".yaml") = true ∧
    World.empty.dir.lookup (go "test" ++ go ".yaml") ≠ some File.dangling ∧
    go "test" ≠ [] ∧ Yaml.plain.RoundTrips ⟨go "other", go "second"⟩ ∧
    (GetCommand.Execute Yaml.plain ⟨go "test"⟩
      (CreateCommand.Execute Yaml.plain ⟨go "test", go "other", go "second"⟩
        (CreateCommand.Execute Yaml.plain ⟨go "test", go "example", go "first"⟩
          World.empty).2).2).2.stdout =
      World.empty.stdout ++ [go "Profile: " ++ go "test" ++ go "\nUser: " ++ go "other"
        ++ go "\nProject: " ++ go "second" ++ go "\n"] :=
  ⟨rfl, by decide, by decide, by decide, ⟨go "user: other\nproject: second\n", rfl, rfl⟩,
    ((create_overwrites_one_file Yaml.plain ⟨go "test", go "example", go "first"⟩
      (go "user: example\nproject: first\n") rfl (by decide) World.empty
      (by decide)).2.2.2.2 (by decide) (go "other") (go "second")
      ⟨go "user: other\nproject: second\n", rfl, rfl⟩).2.2⟩

/-- C2 as stated fails.  Create with the name `x/y` in an empty directory
returns the file-write error.  Create with the name `./a` after a create with
the name `a` returns no error, but the directory gets no entry `./a.yaml`:
the path denotes the entry `a.yaml`, whose content changes from the first
record to the second. -/
theorem create_overwrites_one_file_counterexample :
    (CreateCommand.Execute Yaml.plain ⟨go "x/y", go "example", go "first"⟩ World.empty).1 =
      some (go "ошибка записи файла: open x/y.yaml: no such file or directory") ∧
    (CreateCommand.Execute Yaml.plain ⟨go "a", go "example", go "first"⟩
      World.empty).2.dir.lookup (go "a.yaml")
      = some (File.regular (go "user: example\nproject: first\n")) ∧
    (CreateCommand.Execute Yaml.plain ⟨go "./a", go "other", go "second"⟩
      (CreateCommand.Execute Yaml.plain ⟨go "a", go "example", go "first"⟩
        World.empty).2).1 = none ∧
    (CreateCommand.Execute Yaml.plain ⟨go "./a", go "other", go "second"⟩
      (CreateCommand.Execute Yaml.plain ⟨go "a", go "example", go "first"⟩
        World.empty).2).2.dir.lookup (go "./a" ++ go ".yaml") = none ∧
    go "a.yaml" ≠ go "./a" ++ go ".yaml" ∧
    (CreateCommand.Execute Yaml.plain ⟨go "./a", go "other", go "second"⟩
      (CreateCommand.Execute Yaml.plain ⟨go "a", go "example", go "first"⟩
        World.empty).2).2.dir.lookup (go "a.yaml")
      = some (File.regular (go "user: other\nproject: second\n")) := by
  refine ⟨by decide, by decide, by decide, by decide, by decide, by decide⟩

/-- C3: for every non-empty name `n` and every state whose directory has an
entry `n.yaml`, delete returns no error; afterwards the directory has no
entry `n.yaml` and every other name refers to what it referred to before;
get with name `n` on the resulting state returns the file-read error (cause:
no such file) and writes nothing to standard output. -/
theorem delete_removes_file (y : Yaml) (n : GoString) (hn : n ≠ []) (w : World)
    (hfile : (n ++ go ".yaml") ∈ w.dir) :
    (DeleteCommand.Execute ⟨n⟩ w).1 = none ∧
    (n ++ go ".yaml") ∉ (DeleteCommand.Execute ⟨n⟩ w).2.dir ∧
    (∀ f, f ≠ n ++ go ".yaml" →
      (DeleteCommand.Execute ⟨n⟩ w).2.dir.lookup f = w.dir.lookup f) ∧
    (GetCommand.Execute y ⟨n⟩ (DeleteCommand.Execute ⟨n⟩ w).2).1 =
      some (go "ошибка чтения файла: "
        ++ os.PathError (go "open") (n ++ go ".yaml") (go "no such file or directory")) ∧
    (GetCommand.Execute y ⟨n⟩ (DeleteCommand.Execute ⟨n⟩ w).2).2.stdout = w.stdout := by
  rw [delete_execute_present ⟨n⟩ w hn hfile]
  have hgone : (n ++ go ".yaml") ∉ w.dir.erase (n ++ go ".yaml") := dir_not_mem_erase _ _
  refine ⟨rfl, hgone, ?_, ?_⟩
  · intro f hf
    exact dir_lookup_erase_ne _ _ _ hf
  · rw [get_execute_absent y ⟨n⟩ _ hn (dir_entryName _ _ hfile)
      ((dir_lookup_eq_none _ _).2 hgone)]
    exact ⟨rfl, rfl⟩

theorem delete_removes_file_witness :
    go "test" ≠ [] ∧
    (go "test" ++ go ".yaml") ∈
      (CreateCommand.Execute Yaml.framed ⟨go "test", go "u", go "p"⟩ World.empty).2.dir ∧
    (go "test" ++ go ".yaml") ∉ (DeleteCommand.Execute ⟨go "test"⟩
      (CreateCommand.Execute Yaml.framed ⟨go "test", go "u", go "p"⟩ World.empty).2).2.dir :=
  ⟨by decide, by decide,
    (delete_removes_file Yaml.framed (go "test") (by decide)
      (CreateCommand.Execute Yaml.framed ⟨go "test", go "u", go "p"⟩ World.empty).2
      (by decide)).2.1⟩

/-- C5: on any state, get and delete with the empty name return the error
`необходим флаг --name` and leave the whole state as it was: nothing is
printed, no file-system call is made, the directory is unchanged (whether or
not it has an entry `.yaml`).  The name is empty when the flag is absent and
when it is given as `--name=`. -/
theorem name_flag_required (y : Yaml) (w : World) :
    GetCommand.Execute y ⟨[]⟩ w = (some (go "необходим флаг --name"), w) ∧
    DeleteCommand.Execute ⟨[]⟩ w = (some (go "необходим флаг --name"), w) ∧
    (∀ c : GetCommand, c.ParseFlags [] w = ((flag.Result.returned none, ⟨[]⟩), w)) ∧
    (∀ c : DeleteCommand, c.ParseFlags [] w = ((flag.Result.returned none, ⟨[]⟩), w)) ∧
    (∀ c : GetCommand, c.ParseFlags [go "--name="] w = ((flag.Result.returned none, ⟨[]⟩), w)) ∧
    (∀ c : DeleteCommand,
      c.ParseFlags [go "--name="] w = ((flag.Result.returned none, ⟨[]⟩), w)) := by
  refine ⟨by simp [GetCommand.Execute, errNameRequired],
    by simp [DeleteCommand.Execute, errNameRequired], ?_, ?_, ?_, ?_⟩
  · intro c
    simp [GetCommand.ParseFlags, flag.FlagSet.Parse, flag.FlagSet.scan, flag.value]
  · intro c
    simp [DeleteCommand.ParseFlags, flag.FlagSet.Parse, flag.FlagSet.scan, flag.value]
  · intro c
    simpa using get_parseflags_name c [] w
  · intro c
    simpa using delete_parseflags_name c [] w

theorem go_yaml_eq : go ".yaml" = [46, 121, 97, 109, 108] := by decide

theorem match_length (f : GoString) (h : filepath.Match f = true) : 5 ≤ f.length := by
  have hs : go ".yaml" <:+ f := by
    simpa [filepath.Match] using h
  have := hs.length_le
  simpa [go_yaml_eq] using this

theorem match_file (n : GoString) : filepath.Match (n ++ go ".yaml") = true := by
  simp [filepath.Match]

theorem stem_file (n : GoString) :
    (n ++ go ".yaml").take ((n ++ go ".yaml").length - 5) = n := by
  simp [go_yaml_eq]

theorem insertSorted_perm (x : GoString) (l : List GoString) :
    (filepath.insertSorted x l).Perm (x :: l) := by
  induction l with
  | nil => simp [filepath.insertSorted]
  | cons y ys ih =>
    unfold filepath.insertSorted
    split
    · exact List.Perm.refl _
    · exact ((List.Perm.cons y ih).trans (List.Perm.swap x y ys))

theorem sortNames_perm (l : List GoString) : (filepath.sortNames l).Perm l := by
  induction l with
  | nil => simp [filepath.sortNames]
  | cons x xs ih =>
    unfold filepath.sortNames
    exact (insertSorted_perm x _).trans (List.Perm.cons x ih)

theorem range_eq (y : Yaml) (files : List GoString) (w : World)
    (hlen : ∀ f ∈ files, 5 ≤ f.length) (hnames : ∀ f ∈ files, isEntryName f = true) :
    ListCommand.range y files w =
      (Outcome.returned none,
        { w with stdout := w.stdout ++ files.filterMap (entryOf y w.dir),
                 stderr := w.stderr ++ files.filterMap (warningOf y w.dir),
                 calls := w.calls ++ files.map Call.ReadFile }) := by
  induction files generalizing w with
  | nil => simp [ListCommand.range]
  | cons f fs ih =>
    have hf : ¬ f.length < 5 := by
      have := hlen f (List.mem_cons_self _ _)
      omega
    have hfs : ∀ g ∈ fs, 5 ≤ g.length := fun g hg => hlen g (List.mem_cons_of_mem _ hg)
    have hns : ∀ g ∈ fs, isEntryName g = true :=
      fun g hg => hnames g (List.mem_cons_of_mem _ hg)
    have hr := resolve_entryName w.dir f (hnames f (List.mem_cons_self _ _))
    unfold ListCommand.range
    rw [if_neg hf]
    cases hl : w.dir.lookup f with
    | none =>
      simp [os.ReadFile, hr, hl, ih _ hfs hns, log.Printf, entryOf, profileOf, warningOf]
    | some file =>
      cases file with
      | dangling =>
        simp [os.ReadFile, hr, hl, ih _ hfs hns, log.Printf, entryOf, profileOf, warningOf]
      | regular data =>
        cases hu : y.Unmarshal data with
        | error err =>
          simp [os.ReadFile, hr, hl, hu, ih _ hfs hns, log.Printf, entryOf, profileOf, warningOf]
        | ok profile =>
          simp [os.ReadFile, hr, hl, hu, ih _ hfs hns, fmt.Printf, entryOf, profileOf, warningOf]


theorem glob_files_mem (w : World) (f : GoString) :
    f ∈ (filepath.Glob w).1.1 ↔ f ∈ w.dir ∧ filepath.Match f = true := by
  simp [filepath.Glob, (sortNames_perm _).mem_iff, dir_mem_keys]

theorem list_execute_eq (y : Yaml) (w : World) (hsome : (filepath.Glob w).1.1 ≠ []) :
    ListCommand.Execute y w =
      (Outcome.returned none,
        { w with
          stdout := w.stdout ++ (go "Доступные профили:" ++ go "\n")
                      :: (filepath.Glob w).1.1.filterMap (entryOf y w.dir),
          stderr := w.stderr ++ (filepath.Glob w).1.1.filterMap (warningOf y w.dir),
          calls := w.calls ++ Call.Glob (go "*.yaml")
                      :: (filepath.Glob w).1.1.map Call.ReadFile }) := by
  have hlen : ∀ f ∈ (filepath.Glob w).1.1, 5 ≤ f.length :=
    fun f hf => match_length f ((glob_files_mem w f).1 hf).2
  have hne : ¬ (filepath.Glob w).1.1.length = 0 := by
    simpa [List.length_eq_zero] using hsome
  unfold ListCommand.Execute
  have hg : filepath.Glob w = (((filepath.Glob w).1.1, none),
      { w with calls := w.calls ++ [Call.Glob (go "*.yaml")] }) := rfl
  rw [hg]
  simp only [if_neg hne]
  rw [range_eq y _ _ hlen (fun f hf => dir_entryName _ _ ((glob_files_mem w f).1 hf).1)]
  simp [fmt.Println]

theorem list_execute_none (y : Yaml) (w : World) (hnone : (filepath.Glob w).1.1 = []) :
    ListCommand.Execute y w =
      (Outcome.returned none,
        { w with
          stdout := w.stdout ++ [go "Нет созданных профилей" ++ go "\n"],
          calls := w.calls ++ [Call.Glob (go "*.yaml")] }) := by
  unfold ListCommand.Execute
  have hg : filepath.Glob w = (((filepath.Glob w).1.1, none),
      { w with calls := w.calls ++ [Call.Glob (go "*.yaml")] }) := rfl
  rw [hg, hnone]
  simp [fmt.Println]


theorem createAll_spec (y : Yaml) (ps : List CreateCommand) (w : World)
    (hnames : (ps.map (fun c => c.name)).Nodup)
    (hplain : ∀ c ∈ ps, isEntryName (c.name ++ go ".yaml") = true)
    (hrt : ∀ c ∈ ps, y.RoundTrips ⟨c.user, c.project⟩)
    (hfresh : ∀ c ∈ ps, (c.name ++ go ".yaml") ∉ w.dir) :
    (createAll y ps w).1 = none ∧
    (createAll y ps w).2.stdout = w.stdout ∧
    (createAll y ps w).2.stderr = w.stderr ∧
    (createAll y ps w).2.dir.keys.Perm (ps.map (fun c => c.name ++ go ".yaml") ++ w.dir.keys) ∧
    (∀ c ∈ ps, profileOf y (createAll y ps w).2.dir (c.name ++ go ".yaml")
      = some ⟨c.user, c.project⟩) ∧
    (∀ f, f ∉ ps.map (fun c => c.name ++ go ".yaml") →
      (createAll y ps w).2.dir.lookup f = w.dir.lookup f) := by
  induction ps generalizing w with
  | nil => simp [createAll]
  | cons c cs ih =>
    obtain ⟨data, hm, hu⟩ := hrt c (List.mem_cons_self _ _)
    have hname := hplain c (List.mem_cons_self _ _)
    have hnd : c.name ∉ cs.map (fun c => c.name) ∧ (cs.map (fun c => c.name)).Nodup :=
      List.nodup_cons.1 hnames
    have hcw : (c.name ++ go ".yaml") ∉ w.dir := hfresh c (List.mem_cons_self _ _)
    have hlink : w.dir.lookup (c.name ++ go ".yaml") ≠ some File.dangling := by
      rw [(dir_lookup_eq_none _ _).2 hcw]
      exact fun h => by cases h
    have hstep : createAll y (c :: cs) w = createAll y cs
        { w with dir := w.dir.insert (c.name ++ go ".yaml") (File.regular data),
                 calls := w.calls ++ [Call.WriteFile (c.name ++ go ".yaml") data] } := by
      simp [createAll, create_execute_eq y c w data hm hname hlink]
    have hfresh1 : ∀ c1 ∈ cs, (c1.name ++ go ".yaml") ∉
        ({ w with dir := w.dir.insert (c.name ++ go ".yaml") (File.regular data),
                  calls := w.calls ++ [Call.WriteFile (c.name ++ go ".yaml") data] } : World).dir := by
      intro c1 hc1 hmem
      have hne : c1.name ≠ c.name := by
        intro h
        exact hnd.1 (List.mem_map.2 ⟨c1, hc1, h⟩)
      have h2 := hfresh c1 (List.mem_cons_of_mem _ hc1)
      rcases (dir_mem_insert _ _ _ _ hname).1 hmem with h3 | h3
      · exact hne (List.append_cancel_right h3)
      · exact h2 h3
    obtain ⟨i1, i2, i3, i4, i5, i6⟩ := ih _ hnd.2
      (fun c1 hc1 => hplain c1 (List.mem_cons_of_mem _ hc1))
      (fun c1 hc1 => hrt c1 (List.mem_cons_of_mem _ hc1)) hfresh1
    have hcs : (c.name ++ go ".yaml") ∉ cs.map (fun c => c.name ++ go ".yaml") := by
      intro h
      obtain ⟨c1, hc1, he⟩ := List.mem_map.1 h
      have : c1.name = c.name := List.append_cancel_right he
      exact hnd.1 (List.mem_map.2 ⟨c1, hc1, this⟩)
    rw [hstep]
    refine ⟨i1, i2, i3, ?_, ?_, ?_⟩
    · refine i4.trans ?_
      simp [dir_keys_insert _ _ _ hname hcw]
    · intro c1 hc1
      rcases List.mem_cons.1 hc1 with h | h
      · subst h
        have := i6 _ hcs
        simp [profileOf, this, dir_lookup_insert _ _ _ hname, hu]
      · exact i5 c1 h
    · intro f hf
      have hf1 : f ≠ c.name ++ go ".yaml" := by
        intro h; exact hf (by simp [h])
      have hf2 : f ∉ cs.map (fun c => c.name ++ go ".yaml") := by
        intro h; exact hf (by simp at h ⊢; exact Or.inr h)
      rw [i6 f hf2]
      exact dir_lookup_insert_ne _ _ _ _ hf1

theorem warningOf_of_profileOf (y : Yaml) (d : Dir) (f : GoString) (p : DataSet)
    (h : profileOf y d f = some p) : warningOf y d f = none := by
  cases hl : d.lookup f with
  | none => simp [profileOf, hl] at h
  | some file =>
    cases file with
    | dangling => simp [profileOf, hl] at h
    | regular data =>
      cases hu : y.Unmarshal data with
      | error err => simp [profileOf, hl, hu] at h
      | ok profile => simp [warningOf, hl, hu]

theorem warningOf_of_not_profileOf (y : Yaml) (d : Dir) (f : GoString)
    (h : profileOf y d f = none) : (warningOf y d f).isSome = true := by
  cases hl : d.lookup f with
  | none => simp [warningOf, hl]
  | some file =>
    cases file with
    | dangling => simp [warningOf, hl]
    | regular data =>
      cases hu : y.Unmarshal data with
      | error err => simp [warningOf, hl, hu]
      | ok profile => simp [profileOf, hl, hu] at h

/-! ## The listing -/

/-- C6 (amended): starting from an empty directory and creating the profiles
of a list whose names are pairwise distinct, give entry names `name.yaml`,
and whose records the serialization writes and reads back (none deleted),
every create returns no error and the listing returns no error and logs no
warning; for the empty list it prints the single line
`Нет созданных профилей`, otherwise the header and then exactly as many
entry lines as profiles were created, which are, up to their order, the lines
`- name (User: user, Project: project)` of the created profiles. -/
theorem list_after_creates (y : Yaml) (ps : List CreateCommand)
    (hnames : (ps.map (fun c => c.name)).Nodup)
    (hplain : ∀ c ∈ ps, isEntryName (c.name ++ go ".yaml") = true)
    (hrt : ∀ c ∈ ps, y.RoundTrips ⟨c.user, c.project⟩)
    (w : World) (hempty : w.dir = ∅) :
    (createAll y ps w).1 = none ∧
    (ListCommand.Execute y (createAll y ps w).2).1 = Outcome.returned none ∧
    (ListCommand.Execute y (createAll y ps w).2).2.stderr = w.stderr ∧
    ∃ lines : List GoString,
      lines.length = ps.length ∧
      lines.Perm (ps.map (fun c => entryLine c.name ⟨c.user, c.project⟩)) ∧
      (ListCommand.Execute y (createAll y ps w).2).2.stdout =
        w.stdout ++ (if ps = [] then [go "Нет созданных профилей" ++ go "\n"]
                     else (go "Доступные профили:" ++ go "\n") :: lines) := by
  have hfresh : ∀ c ∈ ps, (c.name ++ go ".yaml") ∉ w.dir := by
    intro c _
    rw [hempty]
    exact dir_not_mem_empty _
  obtain ⟨i1, i2, i3, i4, i5, _⟩ := createAll_spec y ps w hnames hplain hrt hfresh
  have hkeys : (createAll y ps w).2.dir.keys.Perm (ps.map (fun c => c.name ++ go ".yaml")) := by
    simpa [hempty, dir_keys_empty] using i4
  have hfilter : (ps.map (fun c => c.name ++ go ".yaml")).filter filepath.Match
      = ps.map (fun c => c.name ++ go ".yaml") := by
    refine List.filter_eq_self.2 ?_
    intro f hf
    obtain ⟨c, _, rfl⟩ := List.mem_map.1 hf
    exact match_file c.name
  have hfiles : (filepath.Glob (createAll y ps w).2).1.1.Perm
      (ps.map (fun c => c.name ++ go ".yaml")) := by
    have h1 := (sortNames_perm ((createAll y ps w).2.dir.keys.filter filepath.Match)).trans
      (hkeys.filter filepath.Match)
    rw [hfilter] at h1
    exact h1
  have hentries : (ps.map (fun c => c.name ++ go ".yaml")).filterMap
      (entryOf y (createAll y ps w).2.dir)
      = ps.map (fun c => entryLine c.name ⟨c.user, c.project⟩) := by
    rw [List.filterMap_map]
    have hc : ∀ c ∈ ps, (entryOf y (createAll y ps w).2.dir ∘ fun c => c.name ++ go ".yaml") c
        = (some ∘ fun c : CreateCommand => entryLine c.name ⟨c.user, c.project⟩) c := by
      intro c hc
      simp only [Function.comp, entryOf, i5 c hc, stem_file, Option.map_some']
    rw [List.filterMap_congr hc, List.filterMap_eq_map]
  have hlines := (hfiles.filterMap (entryOf y (createAll y ps w).2.dir)).trans
    (List.Perm.of_eq hentries)
  have hwarn : (filepath.Glob (createAll y ps w).2).1.1.filterMap
      (warningOf y (createAll y ps w).2.dir) = [] := by
    refine List.filterMap_eq_nil_iff.2 ?_
    intro f hf
    obtain ⟨c, hc, rfl⟩ := List.mem_map.1 (hfiles.mem_iff.1 hf)
    exact warningOf_of_profileOf y _ _ _ (i5 c hc)
  refine ⟨i1, ?_⟩
  by_cases hps : ps = []
  · subst hps
    have hnone : (filepath.Glob (createAll y [] w).2).1.1 = [] := by
      simpa using hfiles
    rw [list_execute_none y _ hnone]
    exact ⟨rfl, i3, [], rfl, List.Perm.refl _, by simp [i2]⟩
  · have hsome : (filepath.Glob (createAll y ps w).2).1.1 ≠ [] := by
      intro h
      rw [h] at hfiles
      exact hps (List.map_eq_nil_iff.1 hfiles.symm.eq_nil)
    rw [list_execute_eq y _ hsome]
    refine ⟨rfl, by simp [hwarn, i3], _, ?_, hlines, by simp [hps, i2]⟩
    simpa using hlines.length_eq

theorem list_after_creates_witness :
    (([⟨go "b", go "bob", go "p2"⟩, ⟨go "a", go "alice", go "p1"⟩] : List CreateCommand).map
      (fun c => c.name)).Nodup ∧
    (∀ c ∈ ([⟨go "b", go "bob", go "p2"⟩, ⟨go "a", go "alice", go "p1"⟩] : List CreateCommand),
      isEntryName (c.name ++ go ".yaml") = true) ∧
    (∀ c ∈ ([⟨go "b", go "bob", go "p2"⟩, ⟨go "a", go "alice", go "p1"⟩] : List CreateCommand),
      Yaml.plain.RoundTrips ⟨c.user, c.project⟩) ∧
    World.empty.dir = ∅ ∧
    (ListCommand.Execute Yaml.plain
      (createAll Yaml.plain [⟨go "b", go "bob", go "p2"⟩, ⟨go "a", go "alice", go "p1"⟩]
        World.empty).2).1 = Outcome.returned none ∧
    (ListCommand.Execute Yaml.plain
      (createAll Yaml.plain [⟨go "b", go "bob", go "p2"⟩, ⟨go "a", go "alice", go "p1"⟩]
        World.empty).2).2.stdout =
      [go "Доступные профили:\n", go "- a (User: alice, Project: p1)\n",
       go "- b (User: bob, Project: p2)\n"] := by
  have hplain : ∀ c ∈ ([⟨go "b", go "bob", go "p2"⟩, ⟨go "a", go "alice", go "p1"⟩] :
      List CreateCommand), isEntryName (c.name ++ go ".yaml") = true := by
    intro c hc
    simp only [List.mem_cons, List.mem_singleton, List.not_mem_nil, or_false] at hc
    rcases hc with rfl | rfl <;> decide
  have hrt : ∀ c ∈ ([⟨go "b", go "bob", go "p2"⟩, ⟨go "a", go "alice", go "p1"⟩] :
      List CreateCommand), Yaml.plain.RoundTrips ⟨c.user, c.project⟩ := by
    intro c hc
    simp only [List.mem_cons, List.mem_singleton, List.not_mem_nil, or_false] at hc
    rcases hc with rfl | rfl
    · exact ⟨go "user: bob\nproject: p2\n", rfl, rfl⟩
    · exact ⟨go "user: alice\nproject: p1\n", rfl, rfl⟩
  exact ⟨by decide, hplain, hrt, rfl,
    (list_after_creates Yaml.plain
      [⟨go "b", go "bob", go "p2"⟩, ⟨go "a", go "alice", go "p1"⟩] (by decide) hplain hrt
      World.empty rfl).2.1,
    by decide⟩

/-- C6 as stated fails.  The names `a` and `./a` are distinct; starting from an
empty directory both creates return no error, but they write the same file
`a.yaml`, and the listing prints the header and one entry line (that of the
second create), not two. -/
theorem list_after_creates_counterexample :
    (([⟨go "a", go "alice", go "p1"⟩, ⟨go "./a", go "bob", go "p2"⟩] : List CreateCommand).map
      (fun c => c.name)).Nodup ∧
    (createAll Yaml.plain [⟨go "a", go "alice", go "p1"⟩, ⟨go "./a", go "bob", go "p2"⟩]
      World.empty).1 = none ∧
    (createAll Yaml.plain [⟨go "a", go "alice", go "p1"⟩, ⟨go "./a", go "bob", go "p2"⟩]
      World.empty).2.dir.keys = [go "a.yaml"] ∧
    (ListCommand.Execute Yaml.plain
      (createAll Yaml.plain [⟨go "a", go "alice", go "p1"⟩, ⟨go "./a", go "bob", go "p2"⟩]
        World.empty).2).1 = Outcome.returned none ∧
    (ListCommand.Execute Yaml.plain
      (createAll Yaml.plain [⟨go "a", go "alice", go "p1"⟩, ⟨go "./a", go "bob", go "p2"⟩]
        World.empty).2).2.stdout =
      [go "Доступные профили:\n", go "- a (User: bob, Project: p2)\n"] := by
  refine ⟨by decide, by decide, by decide, by decide, by decide⟩

/-- C7: on every state whose directory has at least one name matching
`*.yaml`, the listing returns no error and leaves the directory as it was.
Walking the matching names in the order `Glob` returns them, it prints after
the header the entry line of every name that can be read and parsed, and logs
one warning for every name that cannot; a name of the second kind gets a
warning and no entry line, a name of the first kind gets its entry line and
no warning, wherever they stand in the order. -/
theorem list_tolerates_failures (y : Yaml) (w : World)
    (hsome : ∃ f, f ∈ w.dir ∧ filepath.Match f = true) :
    (ListCommand.Execute y w).1 = Outcome.returned none ∧
    (ListCommand.Execute y w).2.dir = w.dir ∧
    (∀ f, f ∈ (filepath.Glob w).1.1 ↔ f ∈ w.dir ∧ filepath.Match f = true) ∧
    (ListCommand.Execute y w).2.stdout =
      w.stdout ++ (go "Доступные профили:" ++ go "\n")
        :: (filepath.Glob w).1.1.filterMap (entryOf y w.dir) ∧
    (ListCommand.Execute y w).2.stderr =
      w.stderr ++ (filepath.Glob w).1.1.filterMap (warningOf y w.dir) ∧
    (∀ f, profileOf y w.dir f = none →
      entryOf y w.dir f = none ∧ (warningOf y w.dir f).isSome = true) ∧
    (∀ f p, profileOf y w.dir f = some p →
      entryOf y w.dir f = some (entryLine (f.take (f.length - 5)) p) ∧
      warningOf y w.dir f = none) := by
  have hne : (filepath.Glob w).1.1 ≠ [] := by
    obtain ⟨f, hf⟩ := hsome
    exact List.ne_nil_of_mem ((glob_files_mem w f).2 hf)
  rw [list_execute_eq y w hne]
  refine ⟨rfl, rfl, glob_files_mem w, rfl, rfl, ?_, ?_⟩
  · intro f hf
    exact ⟨by simp [entryOf, hf], warningOf_of_not_profileOf y _ f hf⟩
  · intro f p hf
    exact ⟨by simp [entryOf, hf], warningOf_of_profileOf y _ f p hf⟩

theorem list_tolerates_failures_witness :
    (∃ f, f ∈ (World.start mixedDir).dir ∧ filepath.Match f = true) ∧
    (ListCommand.Execute Yaml.framed (World.start mixedDir)).1 = Outcome.returned none ∧
    (ListCommand.Execute Yaml.framed (World.start mixedDir)).2.stdout =
      [go "Доступные профили:\n", go "- c (User: u, Project: p)\n"] ∧
    (ListCommand.Execute Yaml.framed (World.start mixedDir)).2.stderr =
      [go "ошибка загрузки профилей a: yaml: unmarshal errors\n",
       go "ошибка чтения профиля b: open b.yaml: no such file or directory\n"] :=
  ⟨⟨go "b.yaml", by decide, by decide⟩,
    (list_tolerates_failures Yaml.framed (World.start mixedDir)
      ⟨go "b.yaml", by decide, by decide⟩).1,
    by decide, by decide⟩

theorem resolve_dot_slash_yaml (d : Dir) :
    os.resolve d (go "./" ++ go ".yaml") = Except.ok (os.Target.entry (go ".yaml")) := rfl

/-- C10 (amended): for every user and project that the serialization writes
and reads back and every state in which `.yaml` is not a dangling link,
create with the empty name returns no error and writes the file `.yaml`; on
the resulting state get and delete with the empty name return the error
`необходим флаг --name` and change nothing; the name `.yaml` matches
`*.yaml`, the listing does not panic on it (it returns no error) and among
the lines it prints is the entry with the empty profile name and the user and
project written.  The file stays within reach of the tool under the name
`./`: get with that name returns no error and prints the user and project,
delete with that name returns no error and removes `.yaml`. -/
theorem empty_name_profile (y : Yaml) (user project : GoString)
    (hrt : y.RoundTrips ⟨user, project⟩) (w : World)
    (hlink : w.dir.lookup (go ".yaml") ≠ some File.dangling) :
    (CreateCommand.Execute y ⟨[], user, project⟩ w).1 = none ∧
    (∃ data, y.Marshal ⟨user, project⟩ = Except.ok data ∧
      (CreateCommand.Execute y ⟨[], user, project⟩ w).2.dir.lookup (go ".yaml")
        = some (File.regular data)) ∧
    GetCommand.Execute y ⟨[]⟩ (CreateCommand.Execute y ⟨[], user, project⟩ w).2 =
      (some (go "необходим флаг --name"), (CreateCommand.Execute y ⟨[], user, project⟩ w).2) ∧
    DeleteCommand.Execute ⟨[]⟩ (CreateCommand.Execute y ⟨[], user, project⟩ w).2 =
      (some (go "необходим флаг --name"), (CreateCommand.Execute y ⟨[], user, project⟩ w).2) ∧
    filepath.Match (go ".yaml") = true ∧
    (ListCommand.Execute y (CreateCommand.Execute y ⟨[], user, project⟩ w).2).1
      = Outcome.returned none ∧
    entryLine [] ⟨user, project⟩ ∈
      (ListCommand.Execute y (CreateCommand.Execute y ⟨[], user, project⟩ w).2).2.stdout.drop
        w.stdout.length ∧
    (GetCommand.Execute y ⟨go "./"⟩ (CreateCommand.Execute y ⟨[], user, project⟩ w).2).1
      = none ∧
    (GetCommand.Execute y ⟨go "./"⟩
      (CreateCommand.Execute y ⟨[], user, project⟩ w).2).2.stdout =
      w.stdout ++ [go "Profile: " ++ go "./" ++ go "\nUser: " ++ user
                    ++ go "\nProject: " ++ project ++ go "\n"] ∧
    (DeleteCommand.Execute ⟨go "./"⟩ (CreateCommand.Execute y ⟨[], user, project⟩ w).2).1
      = none ∧
    go ".yaml" ∉
      (DeleteCommand.Execute ⟨go "./"⟩
        (CreateCommand.Execute y ⟨[], user, project⟩ w).2).2.dir := by
  obtain ⟨data, hm, hu⟩ := hrt
  have hname : isEntryName (go ".yaml") = true := by decide
  have hcreate := create_execute_eq y ⟨[], user, project⟩ w data hm hname hlink
  simp only [List.nil_append] at hcreate
  rw [hcreate]
  have hmatch : filepath.Match (go ".yaml") = true := by decide
  have hlook : (w.dir.insert (go ".yaml") (File.regular data)).lookup (go ".yaml")
      = some (File.regular data) := dir_lookup_insert _ _ _ hname
  have hmem : go ".yaml" ∈ (filepath.Glob
      { w with dir := w.dir.insert (go ".yaml") (File.regular data),
               calls := w.calls ++ [Call.WriteFile (go ".yaml") data] }).1.1 := by
    rw [glob_files_mem]
    exact ⟨(dir_lookup_isSome _ _).1 (by rw [hlook]; rfl), hmatch⟩
  have hentry : entryOf y (w.dir.insert (go ".yaml") (File.regular data)) (go ".yaml")
      = some (entryLine [] ⟨user, project⟩) := by
    have ht : (go ".yaml").take ((go ".yaml").length - 5) = [] := by decide
    simp [entryOf, profileOf, hlook, hu, ht]
  have hdot : go "./" ≠ [] := by decide
  refine ⟨rfl, ⟨data, hm, hlook⟩, by simp [GetCommand.Execute, errNameRequired],
    by simp [DeleteCommand.Execute, errNameRequired], hmatch, ?_, ?_, ?_, ?_, ?_, ?_⟩
  · rw [list_execute_eq y _ (List.ne_nil_of_mem hmem)]
  · rw [list_execute_eq y _ (List.ne_nil_of_mem hmem)]
    simp only [List.drop_left]
    exact List.mem_cons_of_mem _ (List.mem_filterMap.2 ⟨go ".yaml", hmem, hentry⟩)
  · simp [GetCommand.Execute, hdot, os.ReadFile, resolve_dot_slash_yaml, hlook, hu]
  · simp [GetCommand.Execute, hdot, os.ReadFile, resolve_dot_slash_yaml, hlook, hu, fmt.Printf]
  · simp [DeleteCommand.Execute, hdot, os.Remove, resolve_dot_slash_yaml, hlook]
  · simp only [DeleteCommand.Execute, hdot, if_false, os.Remove, resolve_dot_slash_yaml, hlook]
    exact dir_not_mem_erase _ _

theorem empty_name_profile_witness :
    Yaml.plain.RoundTrips ⟨go "zed", go "proj"⟩ ∧
    World.empty.dir.lookup (go ".yaml") ≠ some File.dangling ∧
    (ListCommand.Execute Yaml.plain
      (CreateCommand.Execute Yaml.plain ⟨[], go "zed", go "proj"⟩ World.empty).2).1
      = Outcome.returned none ∧
    (ListCommand.Execute Yaml.plain
      (CreateCommand.Execute Yaml.plain ⟨[], go "zed", go "proj"⟩ World.empty).2).2.stdout =
      [go "Доступные профили:\n", go "-  (User: zed, Project: proj)\n"] :=
  ⟨⟨go "user: zed\nproject: proj\n", rfl, rfl⟩, by decide,
    (empty_name_profile Yaml.plain (go "zed") (go "proj")
      ⟨go "user: zed\nproject: proj\n", rfl, rfl⟩ World.empty (by decide)).2.2.2.2.2.1,
    by decide⟩

/-- C10 as stated fails: the profile created with the empty name can be read
and removed through the tool.  After `profile create --user=zed
--project=proj`, `profile get --name=./` ends with exit status 0 and prints
the profile, and `profile delete --name=./` ends with exit status 0 and
leaves the directory empty. -/
theorem empty_name_profile_counterexample :
    (main Yaml.plain [go "gogomts", go "profile", go "create", go "--user=zed",
      go "--project=proj"] World.empty).1 = 0 ∧
    (main Yaml.plain [go "gogomts", go "profile", go "create", go "--user=zed",
      go "--project=proj"] World.empty).2.dir.keys = [go ".yaml"] ∧
    (main Yaml.plain [go "gogomts", go "profile", go "get", go "--name=./"]
      (main Yaml.plain [go "gogomts", go "profile", go "create", go "--user=zed",
        go "--project=proj"] World.empty).2).1 = 0 ∧
    (main Yaml.plain [go "gogomts", go "profile", go "get", go "--name=./"]
      (main Yaml.plain [go "gogomts", go "profile", go "create", go "--user=zed",
        go "--project=proj"] World.empty).2).2.stdout =
      [go "Profile: ./\nUser: zed\nProject: proj\n"] ∧
    (main Yaml.plain [go "gogomts", go "profile", go "delete", go "--name=./"]
      (main Yaml.plain [go "gogomts", go "profile", go "create", go "--user=zed",
        go "--project=proj"] World.empty).2).1 = 0 ∧
    (main Yaml.plain [go "gogomts", go "profile", go "delete", go "--name=./"]
      (main Yaml.plain [go "gogomts", go "profile", go "create", go "--user=zed",
        go "--project=proj"] World.empty).2).2.dir.keys = [] := by
  refine ⟨by decide, by decide, by decide, by decide, by decide, by decide⟩

theorem commands_eq_none (sub : GoString) (h1 : sub ≠ go "create") (h2 : sub ≠ go "get")
    (h3 : sub ≠ go "list") (h4 : sub ≠ go "delete") : commands sub = none := by
  simp [commands, h1, h2, h3, h4]

/-! ## The dispatcher -/

/-- C8: for every argument list that does not select an operation, `main`
ends with exit status 1, the directory unchanged, no file-system call made
and nothing on the error stream.  It prints: the two welcome lines when there
is no argument; the help text when the first argument is `help`; the line
`неизвестная командп: arg` and the help text when the first argument `arg` is
neither `help` nor `profile` (so also for `--help`); a request to name the
action and the help text when `profile` is the only argument; the line
`Незвестное действие: arg` and the help text when the second argument `arg`
is not one of the four. -/
theorem dispatcher_rejects (y : Yaml) (Args : List GoString) (w : World)
    (hreject : selectsOperation Args = false) :
    (main y Args w).1 = 1 ∧
    (main y Args w).2.dir = w.dir ∧
    (main y Args w).2.calls = w.calls ∧
    (main y Args w).2.stderr = w.stderr ∧
    (Args.length < 2 → (main y Args w).2.stdout = w.stdout ++
      [go "Добро поджаловать в gogomts, CLI инструмент для управления профилями" ++ go "\n",
       go "Для начала пропишите'./gogomts --help' для большей информации о возможностях"
         ++ go "\n"]) ∧
    (∀ prog rest, Args = prog :: go "help" :: rest →
      (main y Args w).2.stdout = w.stdout ++ [helpText ++ go "\n"]) ∧
    (∀ prog rest, Args = prog :: go "--help" :: rest →
      (main y Args w).2.stdout = w.stdout ++
        [go "неизвестная командп: " ++ go "--help" ++ go "\n", helpText ++ go "\n"]) ∧
    (∀ prog arg1 rest, Args = prog :: arg1 :: rest → arg1 ≠ go "help" → arg1 ≠ go "profile" →
      (main y Args w).2.stdout = w.stdout ++
        [go "неизвестная командп: " ++ arg1 ++ go "\n", helpText ++ go "\n"]) ∧
    (∀ prog, Args = [prog, go "profile"] →
      (main y Args w).2.stdout = w.stdout ++
        [go "Пожалуйста укажите действие с профилем" ++ go "\n", helpText ++ go "\n"]) ∧
    (∀ prog arg2 rest, Args = prog :: go "profile" :: arg2 :: rest →
      (main y Args w).2.stdout = w.stdout ++
        [go "Незвестное действие: " ++ arg2 ++ go "\n", helpText ++ go "\n"]) := by
  have hp : go "profile" ≠ go "help" := by decide
  have hh1 : go "--help" ≠ go "help" := by decide
  have hh2 : go "--help" ≠ go "profile" := by decide
  match Args, hreject with
  | [], _ => simp [main, printWelcome, fmt.Println]
  | [_], _ => simp [main, printWelcome, fmt.Println]
  | _ :: arg1 :: rest, hrej =>
    by_cases h1 : arg1 = go "help"
    · subst h1
      simp [main, printHelp, fmt.Println, hp.symm, hh1.symm]
    · by_cases h2 : arg1 = go "profile"
      · subst h2
        match rest, hrej with
        | [], _ =>
          simp [main, printHelp, fmt.Println, hp, hh2.symm]
          intro _ arg1 _ _ h _ _ h5
          exact absurd h.symm h5
        | arg2 :: rest2, hrej =>
          have hnone : commands arg2 = none := by
            simp [selectsOperation] at hrej
            exact commands_eq_none arg2 hrej.1 hrej.2.1 hrej.2.2.1 hrej.2.2.2
          simp [main, printHelp, fmt.Println, fmt.Printf, hp, hh2.symm, hnone]
      · simp [main, printHelp, fmt.Println, fmt.Printf, h1, h2]

theorem dispatcher_rejects_witness :
    selectsOperation [go "gogomts", go "--help"] = false ∧
    (main Yaml.framed [go "gogomts", go "--help"] World.empty).1 = 1 ∧
    (main Yaml.framed [go "gogomts", go "--help"] World.empty).2.stdout =
      World.empty.stdout ++
        [go "неизвестная командп: " ++ go "--help" ++ go "\n", helpText ++ go "\n"] :=
  ⟨by decide,
    (dispatcher_rejects Yaml.framed [go "gogomts", go "--help"] World.empty (by decide)).1,
    (dispatcher_rejects Yaml.framed [go "gogomts", go "--help"] World.empty
      (by decide)).2.2.2.2.2.2.1 (go "gogomts") [] rfl⟩


theorem parse_exit_on_error (f : flag.FlagSet) (args : List GoString) (w : World)
    (err : GoString) (hpolicy : f.errorHandling = flag.ErrorHandling.ExitOnError)
    (hscan : f.scan args [] = Except.error err) :
    f.Parse args w =
      ((flag.Result.exited (if err = flag.ErrHelp then 0 else 2), []),
        { w with stderr := w.stderr ++ f.report err }) := by
  unfold flag.FlagSet.Parse
  rw [hscan]
  simp only [hpolicy]
  split <;> rfl

theorem parse_never_returns_error (f : flag.FlagSet) (args : List GoString) (w : World)
    (hpolicy : f.errorHandling = flag.ErrorHandling.ExitOnError) (err : GoString) :
    (f.Parse args w).1.1 ≠ flag.Result.returned (some err) := by
  unfold flag.FlagSet.Parse
  cases hscan : f.scan args [] with
  | ok actual => simp
  | error e =>
    simp only [hpolicy]
    split <;> simp

theorem command_fs_policy (cmd : Command) :
    cmd.fs.errorHandling = flag.ErrorHandling.ExitOnError := by
  cases cmd <;> rfl

theorem command_parseflags_result (cmd : Command) (args : List GoString) (w : World) :
    (cmd.ParseFlags args w).1.1 = (cmd.fs.Parse args w).1.1 ∧
    (cmd.ParseFlags args w).2 = (cmd.fs.Parse args w).2 := by
  cases cmd <;> exact ⟨rfl, rfl⟩

/-- C9 (amended): for every sub-operation of the map `commands` and every
option list its flag set rejects with error `err`, `main` ends inside
`Parse` (policy `ExitOnError`): the exit status is 2, or 0 when `err` is the
help request; the error stream gets what the flag package reports (the error
line and the usage) and nothing from `main`; nothing is printed, the
directory is unchanged and no file-system call is made.  `ParseFlags` never
returns a non-nil error, so the wrapper of `main` is never reached. -/
theorem flag_parse_failure_exits_in_parse (y : Yaml) (prog sub : GoString) (cmd : Command)
    (flags : List GoString) (w : World) (err : GoString)
    (hsub : commands sub = some cmd)
    (hreject : cmd.fs.scan flags [] = Except.error err) :
    (main y (prog :: go "profile" :: sub :: flags) w).1 = (if err = flag.ErrHelp then 0 else 2) ∧
    (main y (prog :: go "profile" :: sub :: flags) w).2.stderr = w.stderr ++ cmd.fs.report err ∧
    (main y (prog :: go "profile" :: sub :: flags) w).2.stdout = w.stdout ∧
    (main y (prog :: go "profile" :: sub :: flags) w).2.dir = w.dir ∧
    (main y (prog :: go "profile" :: sub :: flags) w).2.calls = w.calls ∧
    (∀ args e, (cmd.ParseFlags args w).1.1 ≠ flag.Result.returned (some e)) := by
  have hp : go "profile" ≠ go "help" := by decide
  have hparse := parse_exit_on_error cmd.fs flags w err (command_fs_policy cmd) hreject
  have hres := command_parseflags_result cmd flags w
  rw [hparse] at hres
  have hmain : main y (prog :: go "profile" :: sub :: flags) w =
      (if err = flag.ErrHelp then 0 else 2, { w with stderr := w.stderr ++ cmd.fs.report err }) := by
    simp only [main, hp, hsub]
    generalize cmd.ParseFlags flags w = r at hres
    obtain ⟨⟨res, cmd1⟩, w1⟩ := r
    simp only at hres
    obtain ⟨h1, h2⟩ := hres
    subst h1 h2
    simp
  rw [hmain]
  refine ⟨rfl, rfl, rfl, rfl, rfl, ?_⟩
  intro args e
  rw [(command_parseflags_result cmd args w).1]
  exact parse_never_returns_error cmd.fs args w (command_fs_policy cmd) e

theorem flag_parse_failure_exits_in_parse_witness :
    commands (go "get") = some (Command.get ⟨[]⟩) ∧
    (Command.get ⟨[]⟩).fs.scan [go "--bogus=1"] []
      = Except.error (go "flag provided but not defined: -bogus") ∧
    (main Yaml.framed (go "gogomts" :: go "profile" :: go "get" :: [go "--bogus=1"])
      World.empty).1
      = (if go "flag provided but not defined: -bogus" = flag.ErrHelp then 0 else 2) :=
  ⟨by decide, rfl,
    (flag_parse_failure_exits_in_parse Yaml.framed (go "gogomts") (go "get")
      (Command.get ⟨[]⟩) [go "--bogus=1"] World.empty
      (go "flag provided but not defined: -bogus") (by decide) rfl).1⟩

/-- C9 as stated fails: `profile get --bogus=1` is rejected by the flag set
of get, and `main` ends with exit status 2 (not 1) with only the report of
the flag package on the error stream, no line of which starts with the
wrapper text of `main`; `profile create --help` is rejected as a help request
and `main` ends with exit status 0. -/
theorem flag_parse_failure_wrapper_counterexample :
    commands (go "get") = some (Command.get ⟨[]⟩) ∧
    GetCommand.fs.scan [go "--bogus=1"] []
      = Except.error (go "flag provided but not defined: -bogus") ∧
    (main Yaml.framed [go "gogomts", go "profile", go "get", go "--bogus=1"] World.empty).1 = 2 ∧
    (main Yaml.framed [go "gogomts", go "profile", go "get", go "--bogus=1"] World.empty).2.stderr
      = [go "flag provided but not defined: -bogus\n", go "Usage of get:\n",
         go "  -name string\n    \tProfile name\n"] ∧
    (main Yaml.framed [go "gogomts", go "profile", go "get", go "--bogus=1"]
      World.empty).2.stderr.all
        (fun line => !(go "Ошибка парсинга флагов: ").isPrefixOf line) = true ∧
    commands (go "create") = some (Command.create ⟨[], [], []⟩) ∧
    CreateCommand.fs.scan [go "--help"] [] = Except.error flag.ErrHelp ∧
    (main Yaml.framed [go "gogomts", go "profile", go "create", go "--help"] World.empty).1 = 0 := by
  refine ⟨by decide, rfl, by decide, by decide, by decide, by decide, rfl, by decide⟩

end Gogomts
